import Mathlib

/-!
# Virtual file system: embedding of `FileSystem.h` / `FileSystem.cpp`

The C++ program keeps a tree of heap-allocated `Directory` objects that point at
each other (`shared_ptr` children, `weak_ptr` parent, and the two `shared_ptr`s
`root` and `currentDirectory` of `FileSystem`).  The embedding keeps that
aliasing explicit:

* the heap of `Directory` objects is a list; the address of an object is its
  index, `std::make_shared<Directory>` allocates the next index.  No code path
  ever drops the last `shared_ptr` to a directory, so no cell is ever freed;
* a `std::unordered_map<std::string, V>` is an association list that is only
  accessed through `find`, `assign` (`m[k] = v`) and `erase`;
* a `File` is only ever referenced from the one map slot that owns it, so it is
  stored in the map by value;
* every operation is `void` and reports on `std::cout`; the embedding returns
  the text written, with `std::endl` as a newline;
* dereferencing a pointer that is not a live heap cell is undefined behaviour in
  C++; operations return `none` there.  The `std::mutex` members have no effect on
  a sequential run and are not represented.
-/

namespace VFS

/-! ## `std::unordered_map<std::string, V>` -/

/-- The map type: keys paired with values. -/
abbrev Map (α : Type) := List (String × α)

namespace Map

/-- Lookup as done by `m.find(k)`: the value under key `k`, or `none` for `m.end()`. -/
def find {α : Type} : Map α → String → Option α
  | [], _ => none
  | (k', v) :: rest, k => if k' = k then some v else find rest k

/-- Assignment `m[k] = v`: overwrite the slot of `k`, creating it when absent. -/
def assign {α : Type} : Map α → String → α → Map α
  | [], k, v => [(k, v)]
  | (k', v') :: rest, k, v =>
    if k' = k then (k', v) :: rest else (k', v') :: assign rest k v

/-- Removal `m.erase(m.find(k))`: drop the slot that `find` returns. -/
def erase {α : Type} : Map α → String → Map α
  | [], _ => []
  | (k', v') :: rest, k => if k' = k then rest else (k', v') :: erase rest k

/-- The keys of the map, in slot order. -/
def keys {α : Type} (m : Map α) : List String := m.map Prod.fst

end Map

/-! ## Data model (`FileSystem.h`) -/

/-- Class `File`: a name and a content. -/
structure File where
  name : String
  content : String
  deriving DecidableEq, Repr

/-- Constructor `File::File(name)`: the content starts empty. -/
def File.new (name : String) : File := { name := name, content := "" }

/-- Class `Directory`.  `subDirectories` maps a name to the address of the child,
`parent` is the `weak_ptr` (`none` when it was never set). -/
structure Directory where
  name : String
  subDirectories : Map Nat
  files : Map File
  parent : Option Nat
  deriving DecidableEq, Repr

/-- Constructor `Directory::Directory(name)`: empty maps, empty `parent`. -/
def Directory.new (name : String) : Directory :=
  { name := name, subDirectories := [], files := [], parent := none }

/-- Class `FileSystem` together with the heap its pointers refer to. -/
structure FileSystem where
  heap : List Directory
  root : Nat
  currentDirectory : Nat
  deriving DecidableEq, Repr

namespace FileSystem

/-- Constructor `FileSystem::FileSystem()`: one directory `"/"`, which is both the
root and the current directory. -/
def new : FileSystem :=
  { heap := [Directory.new "/"], root := 0, currentDirectory := 0 }

/-- Dereference of a directory pointer. -/
def deref (fs : FileSystem) (p : Nat) : Option Directory := fs.heap[p]?

/-- Store through a directory pointer. -/
def store (fs : FileSystem) (p : Nat) (d : Directory) : FileSystem :=
  { fs with heap := fs.heap.set p d }

/-- The call `w.lock()` on a `weak_ptr`: the pointer when the object is alive. -/
def lock (fs : FileSystem) (w : Option Nat) : Option Nat :=
  match w with
  | none => none
  | some p => if p < fs.heap.length then some p else none

/-! ## Operations (`FileSystem.cpp`) -/

/-- Method `FileSystem::createFile`. -/
def createFile (fs : FileSystem) (fileName : String) : Option (FileSystem × String) :=
  match fs.deref fs.currentDirectory with
  | none => none
  | some cur =>
    match cur.files.find fileName with
    | some _ =>
      some (fs, "Error: File '" ++ fileName ++ "' already exists in the current directory.\n")
    | none =>
      some (fs.store fs.currentDirectory
              { cur with files := cur.files.assign fileName (File.new fileName) },
            "File '" ++ fileName ++ "' created successfully.\n")

/-- Method `FileSystem::readFile`. -/
def readFile (fs : FileSystem) (fileName : String) : Option (FileSystem × String) :=
  match fs.deref fs.currentDirectory with
  | none => none
  | some cur =>
    match cur.files.find fileName with
    | some file =>
      some (fs, "Reading from in-memory file '" ++ fileName ++ "':\n" ++ file.content ++ "\n")
    | none =>
      some (fs, "Error: File '" ++ fileName ++ "' not found in memory.\n")

/-- Method `FileSystem::writeFile`. -/
def writeFile (fs : FileSystem) (fileName content : String) : Option (FileSystem × String) :=
  match fs.deref fs.currentDirectory with
  | none => none
  | some cur =>
    match cur.files.find fileName with
    | some file =>
      some (fs.store fs.currentDirectory
              { cur with files := cur.files.assign fileName { file with content := content } },
            "File '" ++ fileName ++ "' has been updated.\n")
    | none =>
      some (fs, "Error: File '" ++ fileName ++ "' not found.\n")

/-- Method `FileSystem::deleteFile`. -/
def deleteFile (fs : FileSystem) (fileName : String) : Option (FileSystem × String) :=
  match fs.deref fs.currentDirectory with
  | none => none
  | some cur =>
    match cur.files.find fileName with
    | some _ =>
      some (fs.store fs.currentDirectory { cur with files := cur.files.erase fileName },
            "File '" ++ fileName ++ "' has been deleted.\n")
    | none =>
      some (fs, "Error: File '" ++ fileName ++ "' not found.\n")

/-- Method `FileSystem::createDirectory`.  The new object gets the next free
address; its `parent` is set before it is linked into the current directory. -/
def createDirectory (fs : FileSystem) (dirName : String) : Option (FileSystem × String) :=
  match fs.deref fs.currentDirectory with
  | none => none
  | some cur =>
    match cur.subDirectories.find dirName with
    | some _ =>
      some (fs, "Error: Directory '" ++ dirName ++ "' already exists.\n")
    | none =>
      let newDir := fs.heap.length
      let fs1 : FileSystem := { fs with heap := fs.heap ++ [Directory.new dirName] }
      let fs2 := fs1.store newDir { Directory.new dirName with parent := some fs.currentDirectory }
      some (fs2.store fs.currentDirectory
              { cur with subDirectories := cur.subDirectories.assign dirName newDir },
            "Directory '" ++ dirName ++ "' created.\n")

/-- Method `FileSystem::changeDirectory`. -/
def changeDirectory (fs : FileSystem) (dirName : String) : Option (FileSystem × String) :=
  match fs.deref fs.currentDirectory with
  | none => none
  | some cur =>
    match cur.subDirectories.find dirName with
    | some child =>
      some ({ fs with currentDirectory := child }, "Changed to directory '" ++ dirName ++ "'.\n")
    | none =>
      some (fs, "Error: Directory '" ++ dirName ++ "' not found.\n")

/-- Method `FileSystem::goToParent`. -/
def goToParent (fs : FileSystem) : Option (FileSystem × String) :=
  if fs.currentDirectory = fs.root then
    some (fs, "Already at the root directory.\n")
  else
    match fs.deref fs.currentDirectory with
    | none => none
    | some cur =>
      match fs.lock cur.parent with
      | some parentDir =>
        some ({ fs with currentDirectory := parentDir }, "Moved to parent directory.\n")
      | none =>
        some (fs, "Error: Parent directory no longer exists.\n")

/-- Method `FileSystem::goToRoot`. -/
def goToRoot (fs : FileSystem) : Option (FileSystem × String) :=
  some ({ fs with currentDirectory := fs.root }, "Moved to root directory.\n")

end FileSystem

/-! ## Calls and reachable states -/

/-- One call of a public method of `FileSystem`. -/
inductive Op where
  | createFile (fileName : String)
  | readFile (fileName : String)
  | writeFile (fileName content : String)
  | deleteFile (fileName : String)
  | createDirectory (dirName : String)
  | changeDirectory (dirName : String)
  | goToParent
  | goToRoot
  deriving DecidableEq, Repr

/-- Perform one call. -/
def FileSystem.call (fs : FileSystem) : Op → Option (FileSystem × String)
  | .createFile n => fs.createFile n
  | .readFile n => fs.readFile n
  | .writeFile n c => fs.writeFile n c
  | .deleteFile n => fs.deleteFile n
  | .createDirectory n => fs.createDirectory n
  | .changeDirectory n => fs.changeDirectory n
  | .goToParent => fs.goToParent
  | .goToRoot => fs.goToRoot

/-- Perform a sequence of calls, first to last; the result is the final state and
the text written by each call, in order. -/
def FileSystem.run (fs : FileSystem) : List Op → Option (FileSystem × List String)
  | [] => some (fs, [])
  | op :: ops =>
    match fs.call op with
    | none => none
    | some (fs1, out) =>
      match fs1.run ops with
      | none => none
      | some (fs2, outs) => some (fs2, out :: outs)

/-- A state is reachable when some finite sequence of calls on a freshly
constructed `FileSystem` ends in it. -/
def Reachable (fs : FileSystem) : Prop :=
  ∃ (ops : List Op) (outs : List String), FileSystem.new.run ops = some (fs, outs)

/-! ## The mutex each method holds -/

/-- The `std::mutex` objects of the program: `FileSystem::fsMutex` and the
`Directory::dirMutex` of the directory at an address. -/
inductive Mutex where
  | fsMutex
  | dirMutex (dir : Nat)
  deriving DecidableEq, Repr

/-- The mutex that the `std::lock_guard` in the first line of each method locks
for the whole body: `currentDirectory->dirMutex` in the first six methods,
`fsMutex` in `goToParent` and `goToRoot`. -/
def FileSystem.guard (fs : FileSystem) : Op → Mutex
  | .createFile _ => .dirMutex fs.currentDirectory
  | .readFile _ => .dirMutex fs.currentDirectory
  | .writeFile _ _ => .dirMutex fs.currentDirectory
  | .deleteFile _ => .dirMutex fs.currentDirectory
  | .createDirectory _ => .dirMutex fs.currentDirectory
  | .changeDirectory _ => .dirMutex fs.currentDirectory
  | .goToParent => .fsMutex
  | .goToRoot => .fsMutex

/-! ## Command layer (`FileSystemCLI`) -/

/-- The whitespace test of the stream extraction (`std::isspace`, classic locale):
blank, `\t`, `\n`, `\v`, `\f`, `\r`. -/
def isspace (c : Char) : Bool :=
  c = ' ' || c = Char.ofNat 9 || c = Char.ofNat 10 || c = Char.ofNat 11 ||
    c = Char.ofNat 12 || c = Char.ofNat 13

/-- The extraction `stream >> word` on the unread characters of the stream: skip
whitespace, then take characters up to the next whitespace or the end.  The result
is the word and the characters left unread.  A failed extraction leaves the word
empty and nothing unread, so that the stream flags need no representation: every
later read on the stream yields the empty string either way. -/
def extract (stream : List Char) : String × List Char :=
  let s := stream.dropWhile isspace
  (String.mk (s.takeWhile (fun c => !isspace c)), s.dropWhile (fun c => !isspace c))

/-- The call `std::getline(stream, text)`: the characters up to the first line
break, which is consumed and not stored. -/
def getline (stream : List Char) : String × List Char :=
  (String.mk (stream.takeWhile (fun c => c != Char.ofNat 10)),
    (stream.dropWhile (fun c => c != Char.ofNat 10)).drop 1)

/-- Method `FileSystemCLI::processCommand`, on the `FileSystem` member `fs`. -/
def FileSystemCLI.processCommand (fs : FileSystem) (command : String) :
    Option (FileSystem × String) :=
  let stream := command.data
  let (cmd, stream) := extract stream
  if cmd = "create" then
    let (fileName, _) := extract stream
    fs.createFile fileName
  else if cmd = "read" then
    let (fileName, _) := extract stream
    fs.readFile fileName
  else if cmd = "write" then
    let (fileName, stream) := extract stream
    let (content, _) := getline stream
    fs.writeFile fileName content
  else if cmd = "delete" then
    let (fileName, _) := extract stream
    fs.deleteFile fileName
  else if cmd = "createDir" then
    let (dirName, _) := extract stream
    fs.createDirectory dirName
  else if cmd = "cd" then
    let (dirName, _) := extract stream
    fs.changeDirectory dirName
  else if cmd = "parent" then
    fs.goToParent
  else if cmd = "root" then
    fs.goToRoot
  else
    some (fs, "Invalid command.\n")

/-! ## Observations used in the statements -/

namespace FileSystem

/-- The file called `fileName` in the current directory, if there is one. -/
def currentFile (fs : FileSystem) (fileName : String) : Option File :=
  match fs.deref fs.currentDirectory with
  | none => none
  | some cur => cur.files.find fileName

/-- The address of the subdirectory called `dirName` of the current directory, if
there is one. -/
def currentSubDirectory (fs : FileSystem) (dirName : String) : Option Nat :=
  match fs.deref fs.currentDirectory with
  | none => none
  | some cur => cur.subDirectories.find dirName

/-- The number of files of the current directory (`files.size()`). -/
def currentFileCount (fs : FileSystem) : Option Nat :=
  match fs.deref fs.currentDirectory with
  | none => none
  | some cur => some cur.files.length

/-- The directory reached from `p` by following `parent` pointers `k` times. -/
def ancestor (fs : FileSystem) : Nat → Nat → Option Nat
  | 0, p => if p < fs.heap.length then some p else none
  | k + 1, p =>
    match fs.deref p with
    | none => none
    | some d =>
      match fs.lock d.parent with
      | none => none
      | some q => ancestor fs k q

/-- The directory reached from `p` by looking up the names of `path`, one after
the other, in the `subDirectories` maps. -/
def descend (fs : FileSystem) : Nat → List String → Option Nat
  | p, [] => if p < fs.heap.length then some p else none
  | p, n :: ns =>
    match fs.deref p with
    | none => none
    | some d =>
      match d.subDirectories.find n with
      | none => none
      | some c => descend fs c ns

end FileSystem

/-! ## The shape of the state -/

namespace FileSystem

/-- The properties of the pointer graph that every call keeps. -/
structure Inv (fs : FileSystem) : Prop where
  root_live : fs.root < fs.heap.length
  current_live : fs.currentDirectory < fs.heap.length
  root_parent : ∀ d, fs.deref fs.root = some d → d.parent = none
  parent_link : ∀ i d, fs.deref i = some d → i ≠ fs.root →
    ∃ p dp, d.parent = some p ∧ p < i ∧ fs.deref p = some dp ∧
      dp.subDirectories.find d.name = some i
  child_link : ∀ i d name c, fs.deref i = some d → d.subDirectories.find name = some c →
    ∃ dc, fs.deref c = some dc ∧ dc.parent = some i ∧ dc.name = name
  files_nodup : ∀ i d, fs.deref i = some d → d.files.keys.Nodup

end FileSystem

/-! ## Sample states -/

/-- The state after `createFile "notes"` and `writeFile "notes" "draft"`. -/
def sampleFile : FileSystem :=
  ⟨[⟨"/", [], [("notes", ⟨"notes", "draft"⟩)], none⟩], 0, 0⟩

/-- The state after `createDirectory "x"`, `changeDirectory "x"`, `createFile "f"`,
`createDirectory "y"`: three directories, the current one is `x`. -/
def sampleNested : FileSystem :=
  ⟨[⟨"/", [("x", 1)], [], none⟩, ⟨"x", [("y", 2)], [("f", ⟨"f", ""⟩)], some 0⟩,
    ⟨"y", [], [], some 1⟩], 0, 1⟩

/-- The state after `createDirectory "x"`, `changeDirectory "x"`,
`createDirectory "x"`: the root and its subdirectory `x` both have a subdirectory
called `x`; the current directory is the first one. -/
def sampleSameName : FileSystem :=
  ⟨[⟨"/", [("x", 1)], [], none⟩, ⟨"x", [("x", 2)], [], some 0⟩, ⟨"x", [], [], some 1⟩], 0, 1⟩

/-! ## Facts about the maps -/

namespace Map

variable {α : Type}

theorem find_assign_self (m : Map α) (k : String) (v : α) :
    (m.assign k v).find k = some v := by
  induction m with
  | nil => simp [assign, find]
  | cons e rest ih =>
    obtain ⟨k', v'⟩ := e
    by_cases h : k' = k
    · simp [assign, find, h]
    · simp [assign, find, h, ih]

theorem find_assign_ne (m : Map α) {k j : String} (v : α) (h : j ≠ k) :
    (m.assign k v).find j = m.find j := by
  induction m with
  | nil => simp [assign, find, h.symm]
  | cons e rest ih =>
    obtain ⟨k', v'⟩ := e
    by_cases hk : k' = k
    · subst hk
      simp [assign, find, h.symm]
    · by_cases hj : k' = j
      · subst hj
        simp [assign, find, hk]
      · simp [assign, find, hk, hj, ih]

theorem find_erase_ne (m : Map α) {k j : String} (h : j ≠ k) :
    (m.erase k).find j = m.find j := by
  induction m with
  | nil => simp [erase, find]
  | cons e rest ih =>
    obtain ⟨k', v'⟩ := e
    by_cases hk : k' = k
    · subst hk
      simp [erase, find, h.symm]
    · by_cases hj : k' = j
      · subst hj
        simp [erase, find, hk]
      · simp [erase, find, hk, hj, ih]

theorem find_eq_none_iff (m : Map α) (k : String) : m.find k = none ↔ k ∉ m.keys := by
  induction m with
  | nil => simp [find, keys]
  | cons e rest ih =>
    obtain ⟨k', v'⟩ := e
    by_cases hk : k' = k
    · simp [find, keys, hk]
    · have hk2 : ¬ k = k' := fun h => hk h.symm
      simpa [find, keys, hk, hk2] using ih

theorem find_erase_self (m : Map α) (k : String) (h : m.keys.Nodup) :
    (m.erase k).find k = none := by
  induction m with
  | nil => simp [erase, find]
  | cons e rest ih =>
    obtain ⟨k', v'⟩ := e
    have hn : k' ∉ keys rest ∧ (keys rest).Nodup := by simpa [keys] using h
    by_cases hk : k' = k
    · subst hk
      simpa [erase] using (find_eq_none_iff rest k').2 hn.1
    · simpa [erase, find, hk] using ih hn.2

theorem keys_assign_of_find_some (m : Map α) {k : String} {w : α} (v : α)
    (h : m.find k = some w) : (m.assign k v).keys = m.keys := by
  induction m with
  | nil => simp [find] at h
  | cons e rest ih =>
    obtain ⟨k', v'⟩ := e
    by_cases hk : k' = k
    · simp [assign, keys, hk]
    · have h2 : find rest k = some w := by simpa [find, hk] using h
      have := ih h2
      simp only [keys] at this
      simp [assign, keys, hk, this]

theorem assign_of_find_none (m : Map α) {k : String} (v : α)
    (h : m.find k = none) : m.assign k v = m ++ [(k, v)] := by
  induction m with
  | nil => simp [assign]
  | cons e rest ih =>
    obtain ⟨k', v'⟩ := e
    by_cases hk : k' = k
    · simp [find, hk] at h
    · have h2 : find rest k = none := by simpa [find, hk] using h
      simp [assign, hk, ih h2]

theorem nodup_keys_assign (m : Map α) (k : String) (v : α) (h : m.keys.Nodup) :
    (m.assign k v).keys.Nodup := by
  cases hf : m.find k with
  | some w => rw [keys_assign_of_find_some m v hf]; exact h
  | none =>
    rw [assign_of_find_none m v hf]
    have hk : k ∉ m.keys := (find_eq_none_iff m k).1 hf
    simp only [keys] at hk h ⊢
    simp only [List.map_append, List.map_cons, List.map_nil]
    exact List.Nodup.append h (List.nodup_singleton k) (by simpa using hk)

theorem erase_sublist (m : Map α) (k : String) : List.Sublist (m.erase k) m := by
  induction m with
  | nil => simp [erase]
  | cons e rest ih =>
    obtain ⟨k', v'⟩ := e
    by_cases hk : k' = k
    · simp [erase, hk]
    · simpa [erase, hk] using ih

theorem nodup_keys_erase (m : Map α) (k : String) (h : m.keys.Nodup) :
    (m.erase k).keys.Nodup :=
  List.Nodup.sublist ((erase_sublist m k).map Prod.fst) h

end Map

/-! ## Facts about the heap -/

namespace FileSystem

theorem lt_of_deref {fs : FileSystem} {p : Nat} {d : Directory} (h : fs.deref p = some d) :
    p < fs.heap.length := by
  unfold deref at h
  obtain ⟨hlt, _⟩ := List.getElem?_eq_some_iff.1 h
  exact hlt

theorem deref_of_lt {fs : FileSystem} {p : Nat} (h : p < fs.heap.length) :
    ∃ d, fs.deref p = some d := by
  refine ⟨fs.heap[p], ?_⟩
  unfold deref
  exact List.getElem?_eq_some_iff.2 ⟨h, rfl⟩

theorem deref_store (fs : FileSystem) (p q : Nat) (d : Directory) :
    (fs.store p d).deref q =
      if p = q then (if p < fs.heap.length then some d else none) else fs.deref q := by
  simp [deref, store, List.getElem?_set]

theorem deref_store_self {fs : FileSystem} {p : Nat} (d : Directory) (h : p < fs.heap.length) :
    (fs.store p d).deref p = some d := by
  simp [deref_store, h]

theorem deref_store_ne (fs : FileSystem) {p q : Nat} (d : Directory) (h : p ≠ q) :
    (fs.store p d).deref q = fs.deref q := by
  simp [deref_store, h]

@[simp] theorem store_root (fs : FileSystem) (p : Nat) (d : Directory) :
    (fs.store p d).root = fs.root := rfl

@[simp] theorem store_currentDirectory (fs : FileSystem) (p : Nat) (d : Directory) :
    (fs.store p d).currentDirectory = fs.currentDirectory := rfl

@[simp] theorem store_length (fs : FileSystem) (p : Nat) (d : Directory) :
    (fs.store p d).heap.length = fs.heap.length := by
  simp [store]

theorem deref_current_store (fs : FileSystem) (d : Directory)
    (h : fs.currentDirectory < fs.heap.length) :
    (fs.store fs.currentDirectory d).deref (fs.store fs.currentDirectory d).currentDirectory =
      some d :=
  deref_store_self d h

theorem lock_of_lt {fs : FileSystem} {p : Nat} (h : p < fs.heap.length) :
    fs.lock (some p) = some p := by
  simp [lock, h]

/-! ## The shape is kept by every call -/

theorem Inv.new : Inv FileSystem.new := by
  have hd : ∀ i d, FileSystem.new.deref i = some d → i = 0 ∧ d = Directory.new "/" := by
    intro i d h
    have hlt := lt_of_deref h
    have hi : i = 0 := by simpa [FileSystem.new] using hlt
    subst hi
    have : some (Directory.new "/") = some d := h
    exact ⟨rfl, (Option.some.inj this).symm⟩
  constructor
  · simp [FileSystem.new]
  · simp [FileSystem.new]
  · intro d h
    rw [(hd _ d h).2]; rfl
  · intro i d h hi
    exact absurd (hd i d h).1 hi
  · intro i d name c h hf
    rw [(hd i d h).2] at hf
    simp [Directory.new, Map.find] at hf
  · intro i d h
    rw [(hd i d h).2]
    simp [Directory.new, Map.keys]

/-- A state with the same cells up to the files of each directory, and a live
current directory, has the shape again. -/
theorem Inv.of_same_skeleton {fs fs' : FileSystem} (h : Inv fs)
    (hr : fs'.root = fs.root) (hl : fs'.heap.length = fs.heap.length)
    (hc : fs'.currentDirectory < fs'.heap.length)
    (hs : ∀ i d', fs'.deref i = some d' → ∃ d, fs.deref i = some d ∧ d'.name = d.name ∧
      d'.subDirectories = d.subDirectories ∧ d'.parent = d.parent)
    (hn : ∀ i d', fs'.deref i = some d' → d'.files.keys.Nodup) : Inv fs' := by
  have back : ∀ i d, fs.deref i = some d → ∃ d', fs'.deref i = some d' ∧ d'.name = d.name ∧
      d'.subDirectories = d.subDirectories ∧ d'.parent = d.parent := by
    intro i d hd
    have hlt : i < fs'.heap.length := hl ▸ lt_of_deref hd
    obtain ⟨d', hd'⟩ := deref_of_lt hlt
    obtain ⟨d0, hd0, e1, e2, e3⟩ := hs i d' hd'
    have : d0 = d := Option.some.inj (hd0.symm.trans hd)
    subst this
    exact ⟨d', hd', e1, e2, e3⟩
  constructor
  · rw [hr, hl]; exact h.root_live
  · exact hc
  · intro d' hd'
    rw [hr] at hd'
    obtain ⟨d, hd, _, _, e3⟩ := hs _ d' hd'
    rw [e3]; exact h.root_parent d hd
  · intro i d' hd' hi
    rw [hr] at hi
    obtain ⟨d, hd, e1, _, e3⟩ := hs i d' hd'
    obtain ⟨p, dp, hp, hlt, hdp, hfind⟩ := h.parent_link i d hd hi
    obtain ⟨dp', hdp', _, f2, _⟩ := back p dp hdp
    exact ⟨p, dp', e3.trans hp, hlt, hdp', by rw [f2, e1]; exact hfind⟩
  · intro i d' name c hd' hfind
    obtain ⟨d, hd, _, e2, _⟩ := hs i d' hd'
    rw [e2] at hfind
    obtain ⟨dc, hdc, hpar, hname⟩ := h.child_link i d name c hd hfind
    obtain ⟨dc', hdc', f1, _, f3⟩ := back c dc hdc
    exact ⟨dc', hdc', f3.trans hpar, f1.trans hname⟩
  · exact hn

/-- Replacing the files of one directory keeps the shape. -/
theorem Inv.store_files {fs : FileSystem} (h : Inv fs) {p : Nat} {d : Directory}
    (hd : fs.deref p = some d) (files : Map File) (hn : files.keys.Nodup) :
    Inv (fs.store p { d with files := files }) := by
  have hp := lt_of_deref hd
  refine h.of_same_skeleton rfl (store_length _ _ _) ?_ ?_ ?_
  · simpa using h.current_live
  · intro i d' hd'
    rw [deref_store] at hd'
    by_cases hi : p = i
    · subst hi
      simp only [if_true, hp] at hd'
      have := Option.some.inj hd'
      subst this
      exact ⟨d, hd, rfl, rfl, rfl⟩
    · simp only [hi, if_false] at hd'
      exact ⟨d', hd', rfl, rfl, rfl⟩
  · intro i d' hd'
    rw [deref_store] at hd'
    by_cases hi : p = i
    · subst hi
      simp only [if_true, hp] at hd'
      have := Option.some.inj hd'
      subst this
      exact hn
    · simp only [hi, if_false] at hd'
      exact h.files_nodup i d' hd'

/-- Moving the current directory to a live cell keeps the shape. -/
theorem Inv.set_current {fs : FileSystem} (h : Inv fs) {p : Nat} (hp : p < fs.heap.length) :
    Inv { fs with currentDirectory := p } :=
  h.of_same_skeleton rfl rfl hp (fun _ d' hd' => ⟨d', hd', rfl, rfl, rfl⟩)
    (fun i d' hd' => h.files_nodup i d' hd')


theorem createDirectory_fresh {fs : FileSystem} {cur : Directory} {dirName : String}
    (hc : fs.deref fs.currentDirectory = some cur)
    (hf : cur.subDirectories.find dirName = none) :
    ∃ fs', fs.createDirectory dirName = some (fs', "Directory '" ++ dirName ++ "' created.\n") ∧
      fs'.root = fs.root ∧ fs'.currentDirectory = fs.currentDirectory ∧
      fs'.heap.length = fs.heap.length + 1 ∧
      ∀ q, fs'.deref q =
        if q = fs.currentDirectory then
          some { cur with subDirectories := cur.subDirectories.assign dirName fs.heap.length }
        else if q = fs.heap.length then
          some { Directory.new dirName with parent := some fs.currentDirectory }
        else fs.deref q := by
  have hlt := lt_of_deref hc
  refine ⟨(({ fs with heap := fs.heap ++ [Directory.new dirName] } : FileSystem).store
      fs.heap.length { Directory.new dirName with parent := some fs.currentDirectory }).store
      fs.currentDirectory
      { cur with subDirectories := cur.subDirectories.assign dirName fs.heap.length },
    by simp only [createDirectory, hc, hf], rfl, rfl, by simp [store], ?_⟩
  intro q
  simp only [deref_store]
  by_cases h1 : q = fs.currentDirectory
  · subst h1
    simp [store]
    omega
  · have h1' : ¬ fs.currentDirectory = q := fun h => h1 h.symm
    by_cases h2 : q = fs.heap.length
    · subst h2
      simp [h1, h1', store]
    · have h2' : ¬ fs.heap.length = q := fun h => h2 h.symm
      simp only [h1, h1', h2, h2', if_false]
      simp only [deref]
      by_cases h3 : q < fs.heap.length
      · exact List.getElem?_append_left h3
      · have h4 : fs.heap.length + 1 ≤ q := by omega
        rw [List.getElem?_eq_none (by simpa using h4), List.getElem?_eq_none (by omega)]


/-- The state after a successful `createDirectory` has the shape again. -/
theorem Inv.link_new {fs fs' : FileSystem} (h : Inv fs) {cur : Directory} {dirName : String}
    (hc : fs.deref fs.currentDirectory = some cur)
    (hf : cur.subDirectories.find dirName = none)
    (hr : fs'.root = fs.root) (hcur : fs'.currentDirectory = fs.currentDirectory)
    (hl : fs'.heap.length = fs.heap.length + 1)
    (hd : ∀ q, fs'.deref q =
        if q = fs.currentDirectory then
          some { cur with subDirectories := cur.subDirectories.assign dirName fs.heap.length }
        else if q = fs.heap.length then
          some { Directory.new dirName with parent := some fs.currentDirectory }
        else fs.deref q) : Inv fs' := by
  have hlt := lt_of_deref hc
  have hne : fs.heap.length ≠ fs.currentDirectory := by omega
  -- every old cell survives with its name and parent, and with its old links
  have keep : ∀ i d, fs.deref i = some d → ∃ d', fs'.deref i = some d' ∧ d'.name = d.name ∧
      d'.parent = d.parent ∧ d'.files = d.files ∧
      ∀ name c, d.subDirectories.find name = some c → d'.subDirectories.find name = some c := by
    intro i d hi
    have hil := lt_of_deref hi
    by_cases h1 : i = fs.currentDirectory
    · subst h1
      have hcd : cur = d := Option.some.inj (hc.symm.trans hi)
      subst hcd
      refine ⟨{ cur with subDirectories := cur.subDirectories.assign dirName fs.heap.length },
        by rw [hd]; simp, rfl, rfl, rfl, ?_⟩
      intro name c hfind
      have hn : name ≠ dirName := by
        intro e; subst e; rw [hf] at hfind; cases hfind
      simpa [Map.find_assign_ne _ _ hn] using hfind
    · have h2 : i ≠ fs.heap.length := by omega
      exact ⟨d, by rw [hd]; simp [h1, h2, hi], rfl, rfl, rfl, fun _ _ hfind => hfind⟩
  constructor
  · rw [hr, hl]; exact Nat.lt_succ_of_lt h.root_live
  · rw [hcur, hl]; exact Nat.lt_succ_of_lt hlt
  · intro d' hd'
    rw [hr] at hd'
    obtain ⟨d0, hd0⟩ := deref_of_lt h.root_live
    obtain ⟨d1, hd1, _, e2, _⟩ := keep _ d0 hd0
    have : d1 = d' := Option.some.inj (hd1.symm.trans hd')
    subst this
    rw [e2]; exact h.root_parent d0 hd0
  · intro i d' hd' hi
    rw [hr] at hi
    by_cases h2 : i = fs.heap.length
    · subst h2
      rw [hd] at hd'
      simp only [hne, if_false, if_true] at hd'
      have := Option.some.inj hd'
      subst this
      refine ⟨fs.currentDirectory,
        { cur with subDirectories := cur.subDirectories.assign dirName fs.heap.length },
        rfl, hlt, by rw [hd]; simp, ?_⟩
      simpa [Directory.new] using Map.find_assign_self cur.subDirectories dirName fs.heap.length
    · have hil : i < fs.heap.length := by
        have := lt_of_deref hd'
        omega
      obtain ⟨d, hdi⟩ := deref_of_lt hil
      obtain ⟨d1, hd1, e1, e2, _, _⟩ := keep i d hdi
      have : d1 = d' := Option.some.inj (hd1.symm.trans hd')
      subst this
      obtain ⟨p, dp, hp, hpl, hdp, hfind⟩ := h.parent_link i d hdi hi
      obtain ⟨dp', hdp', _, _, _, f4⟩ := keep p dp hdp
      exact ⟨p, dp', e2.trans hp, hpl, hdp', by rw [e1]; exact f4 _ _ hfind⟩
  · intro i d' name c hd' hfind
    by_cases h2 : i = fs.heap.length
    · subst h2
      rw [hd] at hd'
      simp only [hne, if_false, if_true] at hd'
      have := Option.some.inj hd'
      subst this
      simp [Directory.new, Map.find] at hfind
    · have hil : i < fs.heap.length := by
        have := lt_of_deref hd'
        omega
      obtain ⟨d, hdi⟩ := deref_of_lt hil
      by_cases h1 : i = fs.currentDirectory
      · subst h1
        have hcd : cur = d := Option.some.inj (hc.symm.trans hdi)
        subst hcd
        rw [hd] at hd'
        simp only [if_true] at hd'
        have := Option.some.inj hd'
        subst this
        by_cases hn : name = dirName
        · subst hn
          have hcl : c = fs.heap.length := by
            have := Map.find_assign_self cur.subDirectories name fs.heap.length
            simp only at hfind
            rw [this] at hfind
            exact (Option.some.inj hfind).symm
          subst hcl
          exact ⟨{ Directory.new name with parent := some fs.currentDirectory },
            by rw [hd]; simp [hne], rfl, rfl⟩
        · simp only at hfind
          rw [Map.find_assign_ne _ _ hn] at hfind
          obtain ⟨dc, hdc, hpar, hname⟩ := h.child_link _ cur name c hc hfind
          obtain ⟨dc', hdc', f1, f2, _, _⟩ := keep c dc hdc
          exact ⟨dc', hdc', f2.trans hpar, f1.trans hname⟩
      · rw [hd] at hd'
        simp only [h1, h2, if_false] at hd'
        obtain ⟨dc, hdc, hpar, hname⟩ := h.child_link i d' name c hd' hfind
        obtain ⟨dc', hdc', f1, f2, _, _⟩ := keep c dc hdc
        exact ⟨dc', hdc', f2.trans hpar, f1.trans hname⟩
  · intro i d' hd'
    by_cases h2 : i = fs.heap.length
    · subst h2
      rw [hd] at hd'
      simp only [hne, if_false, if_true] at hd'
      have := Option.some.inj hd'
      subst this
      simp [Directory.new, Map.keys]
    · have hil : i < fs.heap.length := by
        have := lt_of_deref hd'
        omega
      obtain ⟨d, hdi⟩ := deref_of_lt hil
      obtain ⟨d1, hd1, _, _, e3, _⟩ := keep i d hdi
      have : d1 = d' := Option.some.inj (hd1.symm.trans hd')
      subst this
      rw [e3]; exact h.files_nodup i d hdi


/-- Every call keeps the shape. -/
theorem Inv.call {fs fs' : FileSystem} {out : String} (h : Inv fs) (op : Op)
    (hcall : fs.call op = some (fs', out)) : Inv fs' := by
  cases op with
  | createFile n =>
    simp only [FileSystem.call, createFile] at hcall
    cases hc : fs.deref fs.currentDirectory with
    | none => simp [hc] at hcall
    | some cur =>
      cases hf : cur.files.find n with
      | some f =>
        simp only [hc, hf, Option.some.injEq, Prod.mk.injEq] at hcall
        rw [← hcall.1]; exact h
      | none =>
        simp only [hc, hf, Option.some.injEq, Prod.mk.injEq] at hcall
        rw [← hcall.1]
        exact h.store_files hc _ (Map.nodup_keys_assign _ _ _ (h.files_nodup _ _ hc))
  | readFile n =>
    simp only [FileSystem.call, readFile] at hcall
    cases hc : fs.deref fs.currentDirectory with
    | none => simp [hc] at hcall
    | some cur =>
      cases hf : cur.files.find n with
      | some f =>
        simp only [hc, hf, Option.some.injEq, Prod.mk.injEq] at hcall
        rw [← hcall.1]; exact h
      | none =>
        simp only [hc, hf, Option.some.injEq, Prod.mk.injEq] at hcall
        rw [← hcall.1]; exact h
  | writeFile n c =>
    simp only [FileSystem.call, writeFile] at hcall
    cases hc : fs.deref fs.currentDirectory with
    | none => simp [hc] at hcall
    | some cur =>
      cases hf : cur.files.find n with
      | some f =>
        simp only [hc, hf, Option.some.injEq, Prod.mk.injEq] at hcall
        rw [← hcall.1]
        exact h.store_files hc _ (Map.nodup_keys_assign _ _ _ (h.files_nodup _ _ hc))
      | none =>
        simp only [hc, hf, Option.some.injEq, Prod.mk.injEq] at hcall
        rw [← hcall.1]; exact h
  | deleteFile n =>
    simp only [FileSystem.call, deleteFile] at hcall
    cases hc : fs.deref fs.currentDirectory with
    | none => simp [hc] at hcall
    | some cur =>
      cases hf : cur.files.find n with
      | some f =>
        simp only [hc, hf, Option.some.injEq, Prod.mk.injEq] at hcall
        rw [← hcall.1]
        exact h.store_files hc _ (Map.nodup_keys_erase _ _ (h.files_nodup _ _ hc))
      | none =>
        simp only [hc, hf, Option.some.injEq, Prod.mk.injEq] at hcall
        rw [← hcall.1]; exact h
  | createDirectory n =>
    simp only [FileSystem.call] at hcall
    cases hc : fs.deref fs.currentDirectory with
    | none => simp [createDirectory, hc] at hcall
    | some cur =>
      cases hf : cur.subDirectories.find n with
      | some c =>
        simp only [createDirectory, hc, hf, Option.some.injEq, Prod.mk.injEq] at hcall
        rw [← hcall.1]; exact h
      | none =>
        obtain ⟨fs1, h1, hr, hcur, hl, hd⟩ := createDirectory_fresh hc hf
        rw [h1] at hcall
        simp only [Option.some.injEq, Prod.mk.injEq] at hcall
        rw [← hcall.1]
        exact h.link_new hc hf hr hcur hl hd
  | changeDirectory n =>
    simp only [FileSystem.call, changeDirectory] at hcall
    cases hc : fs.deref fs.currentDirectory with
    | none => simp [hc] at hcall
    | some cur =>
      cases hf : cur.subDirectories.find n with
      | some c =>
        simp only [hc, hf, Option.some.injEq, Prod.mk.injEq] at hcall
        rw [← hcall.1]
        obtain ⟨dc, hdc, _, _⟩ := h.child_link _ cur n c hc hf
        exact h.set_current (lt_of_deref hdc)
      | none =>
        simp only [hc, hf, Option.some.injEq, Prod.mk.injEq] at hcall
        rw [← hcall.1]; exact h
  | goToParent =>
    simp only [FileSystem.call, goToParent] at hcall
    by_cases hroot : fs.currentDirectory = fs.root
    · simp only [hroot, if_true, Option.some.injEq, Prod.mk.injEq] at hcall
      rw [← hcall.1]; exact h
    · simp only [hroot, if_false] at hcall
      cases hc : fs.deref fs.currentDirectory with
      | none => simp [hc] at hcall
      | some cur =>
        cases hp : fs.lock cur.parent with
        | some p =>
          simp only [hc, hp, Option.some.injEq, Prod.mk.injEq] at hcall
          rw [← hcall.1]
          have hpl : p < fs.heap.length := by
            cases hpar : cur.parent with
            | none => simp [lock, hpar] at hp
            | some q =>
              simp only [lock, hpar] at hp
              by_cases hq : q < fs.heap.length
              · simp only [hq, if_true, Option.some.injEq] at hp
                rw [← hp]; exact hq
              · simp [hq] at hp
          exact h.set_current hpl
        | none =>
          simp only [hc, hp, Option.some.injEq, Prod.mk.injEq] at hcall
          rw [← hcall.1]; exact h
  | goToRoot =>
    simp only [FileSystem.call, goToRoot, Option.some.injEq, Prod.mk.injEq] at hcall
    rw [← hcall.1]
    exact h.set_current h.root_live

/-- Every sequence of calls keeps the shape. -/
theorem Inv.run {fs fs' : FileSystem} {outs : List String} (h : Inv fs) (ops : List Op)
    (hrun : fs.run ops = some (fs', outs)) : Inv fs' := by
  induction ops generalizing fs outs with
  | nil =>
    simp only [FileSystem.run, Option.some.injEq, Prod.mk.injEq] at hrun
    rw [← hrun.1]; exact h
  | cons op ops ih =>
    simp only [FileSystem.run] at hrun
    cases hcall : fs.call op with
    | none => simp [hcall] at hrun
    | some r =>
      obtain ⟨fs1, out⟩ := r
      cases hrest : fs1.run ops with
      | none => simp [hcall, hrest] at hrun
      | some r2 =>
        obtain ⟨fs2, outs2⟩ := r2
        simp only [hcall, hrest, Option.some.injEq, Prod.mk.injEq] at hrun
        have e := hrun.1
        subst e
        exact ih (h.call op hcall) hrest

end FileSystem

/-- Every reachable state has the shape. -/
theorem Reachable.inv {fs : FileSystem} (h : Reachable fs) : fs.Inv := by
  obtain ⟨ops, outs, hrun⟩ := h
  exact FileSystem.Inv.new.run ops hrun

/-- In a reachable state the current directory can be dereferenced. -/
theorem Reachable.current {fs : FileSystem} (h : Reachable fs) :
    ∃ cur, fs.deref fs.currentDirectory = some cur :=
  FileSystem.deref_of_lt h.inv.current_live

/-! ## The branches of each method -/

namespace FileSystem

theorem createFile_absent {fs : FileSystem} {cur : Directory} {n : String}
    (hc : fs.deref fs.currentDirectory = some cur) (hf : cur.files.find n = none) :
    fs.createFile n =
      some (fs.store fs.currentDirectory { cur with files := cur.files.assign n (File.new n) },
        "File '" ++ n ++ "' created successfully.\n") := by
  simp only [createFile, hc, hf]

theorem createFile_present {fs : FileSystem} {cur : Directory} {n : String} {f : File}
    (hc : fs.deref fs.currentDirectory = some cur) (hf : cur.files.find n = some f) :
    fs.createFile n =
      some (fs, "Error: File '" ++ n ++ "' already exists in the current directory.\n") := by
  simp only [createFile, hc, hf]

theorem readFile_present {fs : FileSystem} {cur : Directory} {n : String} {f : File}
    (hc : fs.deref fs.currentDirectory = some cur) (hf : cur.files.find n = some f) :
    fs.readFile n =
      some (fs, "Reading from in-memory file '" ++ n ++ "':\n" ++ f.content ++ "\n") := by
  simp only [readFile, hc, hf]

theorem readFile_absent {fs : FileSystem} {cur : Directory} {n : String}
    (hc : fs.deref fs.currentDirectory = some cur) (hf : cur.files.find n = none) :
    fs.readFile n = some (fs, "Error: File '" ++ n ++ "' not found in memory.\n") := by
  simp only [readFile, hc, hf]

theorem writeFile_present {fs : FileSystem} {cur : Directory} {n c : String} {f : File}
    (hc : fs.deref fs.currentDirectory = some cur) (hf : cur.files.find n = some f) :
    fs.writeFile n c =
      some (fs.store fs.currentDirectory
          { cur with files := cur.files.assign n { f with content := c } },
        "File '" ++ n ++ "' has been updated.\n") := by
  simp only [writeFile, hc, hf]

theorem writeFile_absent {fs : FileSystem} {cur : Directory} {n c : String}
    (hc : fs.deref fs.currentDirectory = some cur) (hf : cur.files.find n = none) :
    fs.writeFile n c = some (fs, "Error: File '" ++ n ++ "' not found.\n") := by
  simp only [writeFile, hc, hf]

theorem deleteFile_present {fs : FileSystem} {cur : Directory} {n : String} {f : File}
    (hc : fs.deref fs.currentDirectory = some cur) (hf : cur.files.find n = some f) :
    fs.deleteFile n =
      some (fs.store fs.currentDirectory { cur with files := cur.files.erase n },
        "File '" ++ n ++ "' has been deleted.\n") := by
  simp only [deleteFile, hc, hf]

theorem deleteFile_absent {fs : FileSystem} {cur : Directory} {n : String}
    (hc : fs.deref fs.currentDirectory = some cur) (hf : cur.files.find n = none) :
    fs.deleteFile n = some (fs, "Error: File '" ++ n ++ "' not found.\n") := by
  simp only [deleteFile, hc, hf]

theorem createDirectory_present {fs : FileSystem} {cur : Directory} {n : String} {c : Nat}
    (hc : fs.deref fs.currentDirectory = some cur) (hf : cur.subDirectories.find n = some c) :
    fs.createDirectory n = some (fs, "Error: Directory '" ++ n ++ "' already exists.\n") := by
  simp only [createDirectory, hc, hf]

theorem changeDirectory_present {fs : FileSystem} {cur : Directory} {n : String} {c : Nat}
    (hc : fs.deref fs.currentDirectory = some cur) (hf : cur.subDirectories.find n = some c) :
    fs.changeDirectory n =
      some ({ fs with currentDirectory := c }, "Changed to directory '" ++ n ++ "'.\n") := by
  simp only [changeDirectory, hc, hf]

theorem changeDirectory_absent {fs : FileSystem} {cur : Directory} {n : String}
    (hc : fs.deref fs.currentDirectory = some cur) (hf : cur.subDirectories.find n = none) :
    fs.changeDirectory n = some (fs, "Error: Directory '" ++ n ++ "' not found.\n") := by
  simp only [changeDirectory, hc, hf]

theorem goToParent_at_root {fs : FileSystem} (hr : fs.currentDirectory = fs.root) :
    fs.goToParent = some (fs, "Already at the root directory.\n") := by
  simp only [goToParent, hr, if_true]

theorem goToParent_below_root {fs : FileSystem} {cur : Directory} {p : Nat}
    (hr : fs.currentDirectory ≠ fs.root) (hc : fs.deref fs.currentDirectory = some cur)
    (hp : cur.parent = some p) (hlive : p < fs.heap.length) :
    fs.goToParent = some ({ fs with currentDirectory := p }, "Moved to parent directory.\n") := by
  simp only [goToParent, hr, if_false, hc, hp, lock, hlive, if_true]

theorem run_nil (fs : FileSystem) : fs.run [] = some (fs, []) := rfl

theorem run_cons {fs fs1 fs2 : FileSystem} {op : Op} {ops : List Op} {out : String}
    {outs : List String} (h1 : fs.call op = some (fs1, out))
    (h2 : fs1.run ops = some (fs2, outs)) :
    fs.run (op :: ops) = some (fs2, out :: outs) := by
  simp only [FileSystem.run, h1, h2]

theorem run_snoc {fs fs1 fs2 : FileSystem} {ops : List Op} {op : Op} {outs : List String}
    {out : String} (h1 : fs.run ops = some (fs1, outs)) (h2 : fs1.call op = some (fs2, out)) :
    fs.run (ops ++ [op]) = some (fs2, outs ++ [out]) := by
  induction ops generalizing fs outs with
  | nil =>
    simp only [FileSystem.run, Option.some.injEq, Prod.mk.injEq] at h1
    obtain ⟨e1, e2⟩ := h1
    subst e1; subst e2
    exact run_cons h2 (run_nil fs2)
  | cons o ops ih =>
    simp only [FileSystem.run] at h1
    cases hcall : fs.call o with
    | none => simp [hcall] at h1
    | some r =>
      obtain ⟨fsa, outa⟩ := r
      cases hrest : fsa.run ops with
      | none => simp [hcall, hrest] at h1
      | some r2 =>
        obtain ⟨fsb, outsb⟩ := r2
        simp only [hcall, hrest, Option.some.injEq, Prod.mk.injEq] at h1
        obtain ⟨e1, e2⟩ := h1
        subst e1; subst e2
        exact run_cons hcall (ih hrest)

theorem currentFile_eq {fs : FileSystem} {cur : Directory}
    (hc : fs.deref fs.currentDirectory = some cur) (n : String) :
    fs.currentFile n = cur.files.find n := by
  simp only [currentFile, hc]

theorem currentSubDirectory_eq {fs : FileSystem} {cur : Directory}
    (hc : fs.deref fs.currentDirectory = some cur) (n : String) :
    fs.currentSubDirectory n = cur.subDirectories.find n := by
  simp only [currentSubDirectory, hc]

end FileSystem

/-! ## Parent chains and message texts -/

namespace FileSystem

theorem Inv.lock_parent {fs : FileSystem} (h : Inv fs) {i : Nat} {d : Directory}
    (hd : fs.deref i = some d) (hi : i ≠ fs.root) :
    ∃ p dp, d.parent = some p ∧ fs.lock d.parent = some p ∧ p < i ∧ fs.deref p = some dp ∧
      dp.subDirectories.find d.name = some i := by
  obtain ⟨p, dp, hp, hlt, hdp, hfind⟩ := h.parent_link i d hd hi
  exact ⟨p, dp, hp, by rw [hp]; exact lock_of_lt (lt_of_deref hdp), hlt, hdp, hfind⟩

theorem Inv.ancestor_root {fs : FileSystem} (h : Inv fs) (i : Nat) :
    i < fs.heap.length → ∃ k, fs.ancestor k i = some fs.root := by
  induction i using Nat.strong_induction_on with
  | _ i ih =>
    intro hi
    by_cases hr : i = fs.root
    · subst hr
      exact ⟨0, by simp [ancestor, hi]⟩
    · obtain ⟨d, hd⟩ := deref_of_lt hi
      obtain ⟨p, dp, _, hlock, hlt, hdp, _⟩ := h.lock_parent hd hr
      obtain ⟨k, hk⟩ := ih p hlt (lt_of_deref hdp)
      exact ⟨k + 1, by simp only [ancestor, hd, hlock]; exact hk⟩

theorem changed_ne_notFound (n : String) :
    "Changed to directory '" ++ n ++ "'.\n" ≠ "Error: Directory '" ++ n ++ "' not found.\n" := by
  intro h
  have h2 := congrArg String.data h
  simp only [String.data_append, List.append_assoc] at h2
  have h3 := congrArg List.head? h2
  simp at h3

end FileSystem

/-- A call on a reachable state ends in a reachable state. -/
theorem Reachable.step {fs fs1 : FileSystem} {out : String} (h : Reachable fs) (op : Op)
    (hcall : fs.call op = some (fs1, out)) : Reachable fs1 := by
  obtain ⟨ops, outs, hrun⟩ := h
  exact ⟨ops ++ [op], outs ++ [out], FileSystem.run_snoc hrun hcall⟩

/-- On a reachable state every call returns. -/
theorem Reachable.call_total {fs : FileSystem} (h : Reachable fs) (op : Op) :
    ∃ fs1 out, fs.call op = some (fs1, out) := by
  obtain ⟨cur, hc⟩ := h.current
  cases op with
  | createFile n =>
    cases hf : cur.files.find n with
    | none => exact ⟨_, _, FileSystem.createFile_absent hc hf⟩
    | some f => exact ⟨_, _, FileSystem.createFile_present hc hf⟩
  | readFile n =>
    cases hf : cur.files.find n with
    | none => exact ⟨_, _, FileSystem.readFile_absent hc hf⟩
    | some f => exact ⟨_, _, FileSystem.readFile_present hc hf⟩
  | writeFile n c =>
    cases hf : cur.files.find n with
    | none => exact ⟨_, _, FileSystem.writeFile_absent hc hf⟩
    | some f => exact ⟨_, _, FileSystem.writeFile_present hc hf⟩
  | deleteFile n =>
    cases hf : cur.files.find n with
    | none => exact ⟨_, _, FileSystem.deleteFile_absent hc hf⟩
    | some f => exact ⟨_, _, FileSystem.deleteFile_present hc hf⟩
  | createDirectory n =>
    cases hf : cur.subDirectories.find n with
    | none =>
      obtain ⟨fs1, h1, _⟩ := FileSystem.createDirectory_fresh hc hf
      exact ⟨_, _, h1⟩
    | some c => exact ⟨_, _, FileSystem.createDirectory_present hc hf⟩
  | changeDirectory n =>
    cases hf : cur.subDirectories.find n with
    | none => exact ⟨_, _, FileSystem.changeDirectory_absent hc hf⟩
    | some c => exact ⟨_, _, FileSystem.changeDirectory_present hc hf⟩
  | goToParent =>
    by_cases hroot : fs.currentDirectory = fs.root
    · exact ⟨_, _, FileSystem.goToParent_at_root hroot⟩
    · obtain ⟨p, dp, hp, _, _, hdp, _⟩ := h.inv.lock_parent hc hroot
      exact ⟨_, _, FileSystem.goToParent_below_root hroot hc hp (FileSystem.lt_of_deref hdp)⟩
  | goToRoot => exact ⟨_, _, rfl⟩

/-! ## The claims -/

open FileSystem

theorem sampleFile_reachable : Reachable sampleFile :=
  ⟨[.createFile "notes", .writeFile "notes" "draft"],
    ["File 'notes' created successfully.\n", "File 'notes' has been updated.\n"], rfl⟩

theorem sampleNested_reachable : Reachable sampleNested :=
  ⟨[.createDirectory "x", .changeDirectory "x", .createFile "f", .createDirectory "y"],
    ["Directory 'x' created.\n", "Changed to directory 'x'.\n",
      "File 'f' created successfully.\n", "Directory 'y' created.\n"], rfl⟩

/-- C1: in a reachable state, writing any content `c` to a file `n` of the current
directory reports the update, and reading `n` right after prints exactly `c` (after
the header line), whatever `n` held before; the stored content is `c`. -/
theorem writeFile_then_readFile (fs : FileSystem) (n c : String) (hreach : Reachable fs)
    (hfile : (fs.currentFile n).isSome = true) :
    ∃ fs1, fs.writeFile n c = some (fs1, "File '" ++ n ++ "' has been updated.\n") ∧
      fs1.readFile n =
        some (fs1, "Reading from in-memory file '" ++ n ++ "':\n" ++ c ++ "\n") ∧
      (fs1.currentFile n).map File.content = some c := by
  obtain ⟨cur, hc⟩ := hreach.current
  rw [currentFile_eq hc] at hfile
  obtain ⟨f, hf⟩ := Option.isSome_iff_exists.1 hfile
  have hc1 := deref_current_store fs
    { cur with files := cur.files.assign n { f with content := c } } (lt_of_deref hc)
  have hf1 := Map.find_assign_self cur.files n { f with content := c }
  refine ⟨_, writeFile_present hc hf, ?_, ?_⟩
  · simpa using readFile_present hc1 hf1
  · rw [currentFile_eq hc1]
    simp [Map.find_assign_self]

/-- Witness of C1: the file `notes` holding `draft` is overwritten by a text with
blanks and a line break, which is read back unchanged. -/
theorem writeFile_then_readFile_witness :
    Reachable sampleFile ∧ (sampleFile.currentFile "notes").isSome = true ∧
      ∃ fs1, sampleFile.writeFile "notes" "a b\n c" =
          some (fs1, "File '" ++ "notes" ++ "' has been updated.\n") ∧
        fs1.readFile "notes" =
          some (fs1, "Reading from in-memory file '" ++ "notes" ++ "':\n" ++ "a b\n c" ++ "\n") ∧
        (fs1.currentFile "notes").map File.content = some "a b\n c" :=
  ⟨sampleFile_reachable, by decide,
    writeFile_then_readFile sampleFile "notes" "a b\n c" sampleFile_reachable (by decide)⟩

/-- C2: in a reachable state, after `createFile n` a second `createFile n` reports
that the file already exists and returns the state it was given: the number of
files of the current directory and the file `n` itself are as before the call. -/
theorem createFile_twice (fs : FileSystem) (n : String) (hreach : Reachable fs) :
    ∃ fs1 out1 fs2, fs.createFile n = some (fs1, out1) ∧
      fs1.createFile n =
        some (fs2, "Error: File '" ++ n ++ "' already exists in the current directory.\n") ∧
      fs2 = fs1 ∧ fs2.currentFileCount = fs1.currentFileCount ∧
      fs2.currentFile n = fs1.currentFile n ∧ (fs1.currentFile n).isSome = true := by
  obtain ⟨cur, hc⟩ := hreach.current
  cases hf : cur.files.find n with
  | some f =>
    refine ⟨fs, _, fs, createFile_present hc hf, createFile_present hc hf, rfl, rfl, rfl, ?_⟩
    rw [currentFile_eq hc, hf]; rfl
  | none =>
    have hc1 := deref_current_store fs
      { cur with files := cur.files.assign n (File.new n) } (lt_of_deref hc)
    have hf1 := Map.find_assign_self cur.files n (File.new n)
    refine ⟨_, _, _, createFile_absent hc hf, createFile_present hc1 hf1, rfl, rfl, rfl, ?_⟩
    rw [currentFile_eq hc1]
    simp [Map.find_assign_self]

/-- Witness of C2: the file `notes` exists with content `draft`, both calls report
the duplicate. -/
theorem createFile_twice_witness :
    Reachable sampleFile ∧
      ∃ fs1 out1 fs2, sampleFile.createFile "notes" = some (fs1, out1) ∧
        fs1.createFile "notes" =
          some (fs2, "Error: File '" ++ "notes" ++ "' already exists in the current directory.\n") ∧
        fs2 = fs1 ∧ fs2.currentFileCount = fs1.currentFileCount ∧
        fs2.currentFile "notes" = fs1.currentFile "notes" ∧
        (fs1.currentFile "notes").isSome = true :=
  ⟨sampleFile_reachable, createFile_twice sampleFile "notes" sampleFile_reachable⟩

/-- C3: in a reachable state where `a` names neither a file nor a subdirectory of
the current directory, `createFile a`, `createDirectory a`, `readFile a` all report
success and the read prints the empty content of the file; after them `a` names
both a file and a subdirectory.  For every name `b`, whether `createFile b`
succeeds is decided by the file map of the current directory alone. -/
theorem createFile_createDirectory_same_name (fs : FileSystem) (a : String)
    (hreach : Reachable fs) (hfile : fs.currentFile a = none)
    (hdir : fs.currentSubDirectory a = none) :
    (∃ fs3, fs.run [.createFile a, .createDirectory a, .readFile a] =
        some (fs3, ["File '" ++ a ++ "' created successfully.\n",
          "Directory '" ++ a ++ "' created.\n",
          "Reading from in-memory file '" ++ a ++ "':\n" ++ "" ++ "\n"]) ∧
      fs3.currentDirectory = fs.currentDirectory ∧
      fs3.currentFile a = some (File.new a) ∧
      fs3.currentSubDirectory a = some fs.heap.length) ∧
    ∀ b : String,
      (fs.currentFile b = none →
        ∃ fs1, fs.createFile b = some (fs1, "File '" ++ b ++ "' created successfully.\n")) ∧
      (fs.currentFile b ≠ none →
        fs.createFile b =
          some (fs, "Error: File '" ++ b ++ "' already exists in the current directory.\n")) := by
  obtain ⟨cur, hc⟩ := hreach.current
  have hlt := lt_of_deref hc
  constructor
  · rw [currentFile_eq hc] at hfile
    rw [currentSubDirectory_eq hc] at hdir
    have h1 := createFile_absent hc hfile
    have hc1 := deref_current_store fs
      { cur with files := cur.files.assign a (File.new a) } hlt
    have hdir1 : ({ cur with files := cur.files.assign a (File.new a) } :
        Directory).subDirectories.find a = none := hdir
    obtain ⟨fs2, h2, _, hcur2, _, hd2⟩ := createDirectory_fresh hc1 hdir1
    have hc2 : fs2.deref fs2.currentDirectory = some
        { cur with
          files := cur.files.assign a (File.new a)
          subDirectories := cur.subDirectories.assign a fs.heap.length } := by
      rw [hd2, hcur2]; simp
    have hf2 := Map.find_assign_self cur.files a (File.new a)
    have h3 := readFile_present hc2 hf2
    refine ⟨fs2, ?_, by simpa using hcur2, ?_, ?_⟩
    · exact run_cons h1 (run_cons h2 (run_cons h3 (run_nil fs2)))
    · rw [currentFile_eq hc2]; exact hf2
    · rw [currentSubDirectory_eq hc2]
      exact Map.find_assign_self cur.subDirectories a fs.heap.length
  · intro b
    rw [currentFile_eq hc]
    constructor
    · intro hb
      exact ⟨_, createFile_absent hc hb⟩
    · intro hb
      cases hfb : cur.files.find b with
      | none => exact absurd hfb hb
      | some f => exact createFile_present hc hfb

/-- Witness of C3: in the directory `x` of the sample tree, `y` is a subdirectory
and `z` is unused. -/
theorem createFile_createDirectory_same_name_witness :
    Reachable sampleNested ∧
      (∃ fs3, sampleNested.run [.createFile "z", .createDirectory "z", .readFile "z"] =
          some (fs3, ["File '" ++ "z" ++ "' created successfully.\n",
            "Directory '" ++ "z" ++ "' created.\n",
            "Reading from in-memory file '" ++ "z" ++ "':\n" ++ "" ++ "\n"]) ∧
        fs3.currentDirectory = sampleNested.currentDirectory ∧
        fs3.currentFile "z" = some (File.new "z") ∧
        fs3.currentSubDirectory "z" = some sampleNested.heap.length) ∧
      ∀ b : String,
        (sampleNested.currentFile b = none →
          ∃ fs1, sampleNested.createFile b =
            some (fs1, "File '" ++ b ++ "' created successfully.\n")) ∧
        (sampleNested.currentFile b ≠ none →
          sampleNested.createFile b =
            some (sampleNested,
              "Error: File '" ++ b ++ "' already exists in the current directory.\n")) :=
  ⟨sampleNested_reachable,
    createFile_createDirectory_same_name sampleNested "z" sampleNested_reachable
      (by decide) (by decide)⟩

/-- C4: in a reachable state, after `deleteFile n` (whether it deleted a file or
reported that there is none) `readFile n` reports that the file is not found. -/
theorem deleteFile_then_readFile (fs : FileSystem) (n : String) (hreach : Reachable fs) :
    ∃ fs1 out1, fs.deleteFile n = some (fs1, out1) ∧
      fs1.readFile n = some (fs1, "Error: File '" ++ n ++ "' not found in memory.\n") ∧
      fs1.currentFile n = none := by
  obtain ⟨cur, hc⟩ := hreach.current
  cases hf : cur.files.find n with
  | none =>
    refine ⟨fs, _, deleteFile_absent hc hf, readFile_absent hc hf, ?_⟩
    rw [currentFile_eq hc]; exact hf
  | some f =>
    have hc1 := deref_current_store fs { cur with files := cur.files.erase n } (lt_of_deref hc)
    have hf1 : (cur.files.erase n).find n = none :=
      Map.find_erase_self cur.files n (hreach.inv.files_nodup _ _ hc)
    refine ⟨_, _, deleteFile_present hc hf, readFile_absent hc1 hf1, ?_⟩
    rw [currentFile_eq hc1]; exact hf1

/-- Witness of C4: the existing file `notes` is deleted and then not found. -/
theorem deleteFile_then_readFile_witness :
    Reachable sampleFile ∧
      ∃ fs1 out1, sampleFile.deleteFile "notes" = some (fs1, out1) ∧
        fs1.readFile "notes" =
          some (fs1, "Error: File '" ++ "notes" ++ "' not found in memory.\n") ∧
        fs1.currentFile "notes" = none :=
  ⟨sampleFile_reachable, deleteFile_then_readFile sampleFile "notes" sampleFile_reachable⟩

/-- C5: in a reachable state whose current directory is the root, `goToParent`
reports that it is already at the root and returns the state unchanged; a following
`createFile n` leaves `n` as a file of the root (reporting success when `n` was not
one before) and changes no other directory. -/
theorem goToParent_from_root (fs : FileSystem) (n : String) (hreach : Reachable fs)
    (hroot : fs.currentDirectory = fs.root) :
    fs.goToParent = some (fs, "Already at the root directory.\n") ∧
    ∃ fs2 out, fs.run [.goToParent, .createFile n] =
        some (fs2, ["Already at the root directory.\n", out]) ∧
      fs2.root = fs.root ∧ fs2.currentDirectory = fs.root ∧
      (∃ d, fs2.deref fs.root = some d ∧ (d.files.find n).isSome = true) ∧
      (∀ i, i ≠ fs.root → fs2.deref i = fs.deref i) ∧
      (fs.currentFile n = none → out = "File '" ++ n ++ "' created successfully.\n") := by
  obtain ⟨cur, hc⟩ := hreach.current
  have hg := goToParent_at_root hroot
  refine ⟨hg, ?_⟩
  cases hf : cur.files.find n with
  | some f =>
    refine ⟨fs, _, run_cons hg (run_cons (createFile_present hc hf) (run_nil fs)),
      rfl, hroot, ⟨cur, hroot ▸ hc, by simp [hf]⟩, fun _ _ => rfl, ?_⟩
    intro h
    rw [currentFile_eq hc, hf] at h
    cases h
  | none =>
    have hc1 := deref_current_store fs
      { cur with files := cur.files.assign n (File.new n) } (lt_of_deref hc)
    refine ⟨_, _, run_cons hg (run_cons (createFile_absent hc hf) (run_nil _)),
      rfl, hroot, ⟨{ cur with files := cur.files.assign n (File.new n) },
        by rw [← hroot]; exact hc1, by simp [Map.find_assign_self]⟩, ?_, fun _ => rfl⟩
    intro i hi
    exact deref_store_ne fs _ (by rw [hroot]; exact fun h => hi h.symm)

/-- Witness of C5: the sample state with one file sits at the root. -/
theorem goToParent_from_root_witness :
    Reachable sampleFile ∧ sampleFile.currentDirectory = sampleFile.root ∧
      (sampleFile.goToParent = some (sampleFile, "Already at the root directory.\n") ∧
      ∃ fs2 out, sampleFile.run [.goToParent, .createFile "todo"] =
          some (fs2, ["Already at the root directory.\n", out]) ∧
        fs2.root = sampleFile.root ∧ fs2.currentDirectory = sampleFile.root ∧
        (∃ d, fs2.deref sampleFile.root = some d ∧ (d.files.find "todo").isSome = true) ∧
        (∀ i, i ≠ sampleFile.root → fs2.deref i = sampleFile.deref i) ∧
        (sampleFile.currentFile "todo" = none →
          out = "File '" ++ "todo" ++ "' created successfully.\n")) :=
  ⟨sampleFile_reachable, rfl,
    goToParent_from_root sampleFile "todo" sampleFile_reachable rfl⟩

/-- C6: in a reachable state where `x` is not a subdirectory of the current
directory, the calls `createDirectory x`, `changeDirectory x`, `createFile f`,
`goToParent`, `changeDirectory x`, `readFile f` all report success, the read prints
the empty content of `f`, and the final current directory is the directory that
the first call allocated. -/
theorem navigation_returns_to_same_node (fs : FileSystem) (x f : String)
    (hreach : Reachable fs) (hdir : fs.currentSubDirectory x = none) :
    ∃ fs6, fs.run [.createDirectory x, .changeDirectory x, .createFile f, .goToParent,
          .changeDirectory x, .readFile f] =
        some (fs6, ["Directory '" ++ x ++ "' created.\n",
          "Changed to directory '" ++ x ++ "'.\n",
          "File '" ++ f ++ "' created successfully.\n",
          "Moved to parent directory.\n",
          "Changed to directory '" ++ x ++ "'.\n",
          "Reading from in-memory file '" ++ f ++ "':\n" ++ "" ++ "\n"]) ∧
      fs6.currentDirectory = fs.heap.length := by
  obtain ⟨cur, hc⟩ := hreach.current
  have hlt := lt_of_deref hc
  have hroot := hreach.inv.root_live
  rw [currentSubDirectory_eq hc] at hdir
  -- createDirectory x
  obtain ⟨fs1, h1, hr1, hcur1, hl1, hd1⟩ := createDirectory_fresh hc hdir
  have hne : fs.heap.length ≠ fs.currentDirectory := by omega
  have hcell_cur : fs1.deref fs.currentDirectory =
      some { cur with subDirectories := cur.subDirectories.assign x fs.heap.length } := by
    rw [hd1]; simp
  have hcell_new : fs1.deref fs.heap.length =
      some { Directory.new x with parent := some fs.currentDirectory } := by
    rw [hd1]; simp [hne]
  have hfind : ({ cur with subDirectories := cur.subDirectories.assign x fs.heap.length } :
      Directory).subDirectories.find x = some fs.heap.length :=
    Map.find_assign_self cur.subDirectories x fs.heap.length
  -- changeDirectory x
  have h2 : fs1.changeDirectory x =
      some ({ fs1 with currentDirectory := fs.heap.length },
        "Changed to directory '" ++ x ++ "'.\n") :=
    changeDirectory_present (by rw [hcur1]; exact hcell_cur) hfind
  -- createFile f, in the new directory
  have hlen : fs.heap.length < fs1.heap.length := by omega
  have hnone : ({ Directory.new x with parent := some fs.currentDirectory } :
      Directory).files.find f = none := rfl
  have h3 := @createFile_absent { fs1 with currentDirectory := fs.heap.length } _ f
    hcell_new hnone
  have hc3 := deref_current_store { fs1 with currentDirectory := fs.heap.length }
    { Directory.new x with
      parent := some fs.currentDirectory
      files := Map.assign [] f (File.new f) } hlen
  -- goToParent
  have h4 := goToParent_below_root (p := fs.currentDirectory)
    (by show fs.heap.length ≠ fs1.root; rw [hr1]; omega) hc3 rfl
    (by show fs.currentDirectory < (fs1.heap.set fs.heap.length _).length
        rw [List.length_set]; omega)
  -- changeDirectory x, again
  have hc4 : (FileSystem.store { fs1 with currentDirectory := fs.heap.length } fs.heap.length
      { Directory.new x with
        parent := some fs.currentDirectory
        files := Map.assign [] f (File.new f) }).deref fs.currentDirectory =
      some { cur with subDirectories := cur.subDirectories.assign x fs.heap.length } := by
    rw [deref_store_ne _ _ hne]; exact hcell_cur
  have h5 := @changeDirectory_present
    { FileSystem.store { fs1 with currentDirectory := fs.heap.length } fs.heap.length
        { Directory.new x with
          parent := some fs.currentDirectory
          files := Map.assign [] f (File.new f) } with
      currentDirectory := fs.currentDirectory } _ x _ hc4 hfind
  -- readFile f
  have h6 := @readFile_present
    { FileSystem.store { fs1 with currentDirectory := fs.heap.length } fs.heap.length
        { Directory.new x with
          parent := some fs.currentDirectory
          files := Map.assign [] f (File.new f) } with
      currentDirectory := fs.heap.length } _ f _ hc3
    (Map.find_assign_self [] f (File.new f))
  exact ⟨_, run_cons h1 (run_cons h2 (run_cons h3 (run_cons h4 (run_cons h5
    (run_cons h6 (run_nil _)))))), rfl⟩

/-- Witness of C6: from the directory `x` of the sample tree, which has a
subdirectory `y` but none called `x`. -/
theorem navigation_returns_to_same_node_witness :
    Reachable sampleNested ∧ sampleNested.currentSubDirectory "x" = none ∧
      ∃ fs6, sampleNested.run [.createDirectory "x", .changeDirectory "x", .createFile "f",
            .goToParent, .changeDirectory "x", .readFile "f"] =
          some (fs6, ["Directory '" ++ "x" ++ "' created.\n",
            "Changed to directory '" ++ "x" ++ "'.\n",
            "File '" ++ "f" ++ "' created successfully.\n",
            "Moved to parent directory.\n",
            "Changed to directory '" ++ "x" ++ "'.\n",
            "Reading from in-memory file '" ++ "f" ++ "':\n" ++ "" ++ "\n"]) ∧
        fs6.currentDirectory = sampleNested.heap.length :=
  ⟨sampleNested_reachable, by decide,
    navigation_returns_to_same_node sampleNested "x" "f" sampleNested_reachable (by decide)⟩

/-- C7: in a reachable state, `changeDirectory name` reports success exactly when
`name` is a key of the subdirectory map of the current directory (the file map
plays no part); then the new state is the old one with the current directory set
to the address stored under `name`; otherwise it reports that the directory is not
found and returns the state unchanged. -/
theorem changeDirectory_spec (fs : FileSystem) (name : String) (hreach : Reachable fs) :
    ((∃ fs1, fs.changeDirectory name =
        some (fs1, "Changed to directory '" ++ name ++ "'.\n")) ↔
      (fs.currentSubDirectory name).isSome = true) ∧
    (∀ c, fs.currentSubDirectory name = some c →
      fs.changeDirectory name =
        some ({ fs with currentDirectory := c }, "Changed to directory '" ++ name ++ "'.\n")) ∧
    (fs.currentSubDirectory name = none →
      fs.changeDirectory name =
        some (fs, "Error: Directory '" ++ name ++ "' not found.\n")) := by
  obtain ⟨cur, hc⟩ := hreach.current
  rw [currentSubDirectory_eq hc]
  refine ⟨?_, fun c hf => changeDirectory_present hc hf, fun hf => changeDirectory_absent hc hf⟩
  cases hf : cur.subDirectories.find name with
  | some c => simp [changeDirectory_present hc hf]
  | none =>
    simp only [changeDirectory_absent hc hf, Option.isSome_none, Option.some.injEq,
      Prod.mk.injEq]
    constructor
    · rintro ⟨_, _, h⟩
      exact absurd h.symm (changed_ne_notFound name)
    · intro h
      cases h

/-- Witness of C7: in the directory `x` of the sample tree `f` is a file and not a
subdirectory. -/
theorem changeDirectory_spec_witness :
    Reachable sampleNested ∧ (sampleNested.currentFile "f").isSome = true ∧
      (((∃ fs1, sampleNested.changeDirectory "f" =
          some (fs1, "Changed to directory '" ++ "f" ++ "'.\n")) ↔
        (sampleNested.currentSubDirectory "f").isSome = true) ∧
      (∀ c, sampleNested.currentSubDirectory "f" = some c →
        sampleNested.changeDirectory "f" =
          some ({ sampleNested with currentDirectory := c },
            "Changed to directory '" ++ "f" ++ "'.\n")) ∧
      (sampleNested.currentSubDirectory "f" = none →
        sampleNested.changeDirectory "f" =
          some (sampleNested, "Error: Directory '" ++ "f" ++ "' not found.\n"))) :=
  ⟨sampleNested_reachable, by decide,
    changeDirectory_spec sampleNested "f" sampleNested_reachable⟩

/-- C8: from every state, `goToRoot` reports success and returns the same heap and
root with the current directory set to the root; calling it again returns the same
state, and `goToParent` right after it reports that it is already at the root. -/
theorem goToRoot_spec (fs : FileSystem) :
    fs.goToRoot =
      some ({ fs with currentDirectory := fs.root }, "Moved to root directory.\n") ∧
    FileSystem.goToRoot { fs with currentDirectory := fs.root } =
      some ({ fs with currentDirectory := fs.root }, "Moved to root directory.\n") ∧
    fs.run [.goToRoot, .goToRoot] =
      some ({ fs with currentDirectory := fs.root },
        ["Moved to root directory.\n", "Moved to root directory.\n"]) ∧
    fs.run [.goToRoot, .goToParent] =
      some ({ fs with currentDirectory := fs.root },
        ["Moved to root directory.\n", "Already at the root directory.\n"]) := by
  refine ⟨rfl, rfl, rfl, ?_⟩
  have h1 : fs.call .goToRoot =
      some ({ fs with currentDirectory := fs.root }, "Moved to root directory.\n") := rfl
  have h2 : FileSystem.call { fs with currentDirectory := fs.root } .goToParent =
      some ({ fs with currentDirectory := fs.root }, "Already at the root directory.\n") :=
    goToParent_at_root rfl
  exact run_cons h1 (run_cons h2 (run_nil _))

/-- C9: in a reachable state `goToParent` never reports that the parent no longer
exists; when the current directory is not the root, its parent pointer is set and
locks to a live directory, and `goToParent` reports the move and makes that
directory the current one. -/
theorem goToParent_never_dangling (fs : FileSystem) (hreach : Reachable fs) :
    (∀ fs1, fs.goToParent ≠ some (fs1, "Error: Parent directory no longer exists.\n")) ∧
    (fs.currentDirectory ≠ fs.root →
      ∃ cur p, fs.deref fs.currentDirectory = some cur ∧ cur.parent = some p ∧
        fs.lock cur.parent = some p ∧ p < fs.heap.length ∧
        fs.goToParent =
          some ({ fs with currentDirectory := p }, "Moved to parent directory.\n")) := by
  obtain ⟨cur, hc⟩ := hreach.current
  have hmove : fs.currentDirectory ≠ fs.root →
      ∃ cur p, fs.deref fs.currentDirectory = some cur ∧ cur.parent = some p ∧
        fs.lock cur.parent = some p ∧ p < fs.heap.length ∧
        fs.goToParent =
          some ({ fs with currentDirectory := p }, "Moved to parent directory.\n") := by
    intro hne
    obtain ⟨p, dp, hp, hlock, _, hdp, _⟩ := hreach.inv.lock_parent hc hne
    exact ⟨cur, p, hc, hp, hlock, lt_of_deref hdp,
      goToParent_below_root hne hc hp (lt_of_deref hdp)⟩
  refine ⟨?_, hmove⟩
  intro fs1 h
  by_cases hroot : fs.currentDirectory = fs.root
  · rw [goToParent_at_root hroot] at h
    simp only [Option.some.injEq, Prod.mk.injEq] at h
    exact absurd h.2 (by decide)
  · obtain ⟨_, p, _, _, _, _, hgo⟩ := hmove hroot
    rw [hgo] at h
    simp only [Option.some.injEq, Prod.mk.injEq] at h
    exact absurd h.2 (by decide)

/-- Witness of C9: the current directory of the sample tree is `x`, below the
root; `goToParent` moves to the root, at address `0`. -/
theorem goToParent_never_dangling_witness :
    Reachable sampleNested ∧ sampleNested.currentDirectory ≠ sampleNested.root ∧
      (∀ fs1, sampleNested.goToParent ≠
          some (fs1, "Error: Parent directory no longer exists.\n")) ∧
      (∃ cur p, sampleNested.deref sampleNested.currentDirectory = some cur ∧
          cur.parent = some p ∧ sampleNested.lock cur.parent = some p ∧
          p < sampleNested.heap.length ∧
          sampleNested.goToParent =
            some ({ sampleNested with currentDirectory := p },
              "Moved to parent directory.\n")) ∧
      sampleNested.goToParent =
        some ({ sampleNested with currentDirectory := 0 }, "Moved to parent directory.\n") :=
  ⟨sampleNested_reachable, by decide,
    (goToParent_never_dangling sampleNested sampleNested_reachable).1,
    (goToParent_never_dangling sampleNested sampleNested_reachable).2 (by decide), rfl⟩

/-- C10: in a reachable state the root is a live directory without parent and is
the only such directory; every other live directory has a parent pointer that
locks to a live directory holding it in its subdirectory map under its own name;
and following parent pointers from any live directory arrives at the root after
finitely many steps. -/
theorem tree_shape (fs : FileSystem) (hreach : Reachable fs) :
    (∃ r, fs.deref fs.root = some r ∧ r.parent = none) ∧
    (∀ i d, fs.deref i = some d → d.parent = none → i = fs.root) ∧
    (∀ i d, fs.deref i = some d → i ≠ fs.root →
      ∃ p dp, d.parent = some p ∧ fs.lock d.parent = some p ∧ fs.deref p = some dp ∧
        dp.subDirectories.find d.name = some i) ∧
    (∀ i d, fs.deref i = some d → ∃ k, fs.ancestor k i = some fs.root) := by
  have hinv := hreach.inv
  refine ⟨?_, ?_, ?_, ?_⟩
  · obtain ⟨r, hr⟩ := deref_of_lt hinv.root_live
    exact ⟨r, hr, hinv.root_parent r hr⟩
  · intro i d hd hp
    by_contra hi
    obtain ⟨p, _, hp2, _⟩ := hinv.parent_link i d hd hi
    rw [hp] at hp2
    cases hp2
  · intro i d hd hi
    obtain ⟨p, dp, hp, hlock, _, hdp, hfind⟩ := hinv.lock_parent hd hi
    exact ⟨p, dp, hp, hlock, hdp, hfind⟩
  · intro i d hd
    exact hinv.ancestor_root i (lt_of_deref hd)

/-- Witness of C10: the sample tree with the three directories `/`, `x`, `y`. -/
theorem tree_shape_witness :
    Reachable sampleNested ∧
      ((∃ r, sampleNested.deref sampleNested.root = some r ∧ r.parent = none) ∧
      (∀ i d, sampleNested.deref i = some d → d.parent = none → i = sampleNested.root) ∧
      (∀ i d, sampleNested.deref i = some d → i ≠ sampleNested.root →
        ∃ p dp, d.parent = some p ∧ sampleNested.lock d.parent = some p ∧
          sampleNested.deref p = some dp ∧ dp.subDirectories.find d.name = some i) ∧
      (∀ i d, sampleNested.deref i = some d →
        ∃ k, sampleNested.ancestor k i = some sampleNested.root)) :=
  ⟨sampleNested_reachable, tree_shape sampleNested sampleNested_reachable⟩

/-! ## Paths from the root -/

namespace FileSystem

theorem descend_snoc {fs : FileSystem} {a p c : Nat} {dp : Directory} {n : String}
    (path : List String) (h : fs.descend a path = some p) (hdp : fs.deref p = some dp)
    (hfind : dp.subDirectories.find n = some c) (hc : c < fs.heap.length) :
    fs.descend a (path ++ [n]) = some c := by
  induction path generalizing a with
  | nil =>
    have hap : a = p := by
      simp only [descend] at h
      by_cases ha : a < fs.heap.length
      · simpa [ha] using h
      · simp [ha] at h
    subst hap
    simp [descend, hdp, hfind, hc]
  | cons m ms ih =>
    simp only [descend, List.cons_append] at h ⊢
    cases hd : fs.deref a with
    | none => simp [hd] at h
    | some d =>
      cases hf : d.subDirectories.find m with
      | none => simp [hd, hf] at h
      | some b =>
        simp only [hd, hf] at h ⊢
        exact ih h

theorem Inv.descend_root {fs : FileSystem} (h : Inv fs) (i : Nat) :
    i < fs.heap.length → ∃ path, fs.descend fs.root path = some i := by
  induction i using Nat.strong_induction_on with
  | _ i ih =>
    intro hi
    by_cases hr : i = fs.root
    · subst hr
      exact ⟨[], by simp [descend, hi]⟩
    · obtain ⟨d, hd⟩ := deref_of_lt hi
      obtain ⟨p, dp, _, hlt, hdp, hfind⟩ := h.parent_link i d hd hr
      obtain ⟨path, hpath⟩ := ih p hlt (lt_of_deref hdp)
      exact ⟨path ++ [d.name], descend_snoc path hpath hdp hfind hi⟩

theorem created_ne_exists (n : String) :
    "Directory '" ++ n ++ "' created.\n" ≠ "Error: Directory '" ++ n ++ "' already exists.\n" := by
  intro h
  have h2 := congrArg String.data h
  simp only [String.data_append, List.append_assoc] at h2
  have h3 := congrArg List.head? h2
  simp at h3

end FileSystem

theorem sampleSameName_reachable : Reachable sampleSameName :=
  ⟨[.createDirectory "x", .changeDirectory "x", .createDirectory "x"],
    ["Directory 'x' created.\n", "Changed to directory 'x'.\n", "Directory 'x' created.\n"],
    rfl⟩

/-! ## The claims, continued -/

/-- C11: the current directory of a freshly constructed `FileSystem` is the root,
and in every reachable state the current directory is a live directory that is
reached from the root by looking up a finite path of names in the subdirectory
maps. -/
theorem current_reachable_from_root (fs : FileSystem) (hreach : Reachable fs) :
    FileSystem.new.currentDirectory = FileSystem.new.root ∧
    ∃ cur path, fs.deref fs.currentDirectory = some cur ∧
      fs.descend fs.root path = some fs.currentDirectory := by
  obtain ⟨cur, hc⟩ := hreach.current
  obtain ⟨path, hpath⟩ := hreach.inv.descend_root _ hreach.inv.current_live
  exact ⟨rfl, cur, path, hc, hpath⟩

/-- Witness of C11: in the sample tree whose directories `/` and `x` both have a
subdirectory `x`, the current directory is found from the root. -/
theorem current_reachable_from_root_witness :
    Reachable sampleSameName ∧
      (FileSystem.new.currentDirectory = FileSystem.new.root ∧
      ∃ cur path, sampleSameName.deref sampleSameName.currentDirectory = some cur ∧
        sampleSameName.descend sampleSameName.root path =
          some sampleSameName.currentDirectory) :=
  ⟨sampleSameName_reachable, current_reachable_from_root sampleSameName sampleSameName_reachable⟩

/-- C12: in a reachable state, `writeFile n c` for a name `n` that is not a file of
the current directory reports that the file is not found and returns the state
unchanged; `readFile n` right after it reports not found as well. -/
theorem writeFile_never_creates (fs : FileSystem) (n c : String) (hreach : Reachable fs)
    (habsent : fs.currentFile n = none) :
    fs.writeFile n c = some (fs, "Error: File '" ++ n ++ "' not found.\n") ∧
    fs.run [.writeFile n c, .readFile n] =
      some (fs, ["Error: File '" ++ n ++ "' not found.\n",
        "Error: File '" ++ n ++ "' not found in memory.\n"]) := by
  obtain ⟨cur, hc⟩ := hreach.current
  rw [currentFile_eq hc] at habsent
  have h1 := writeFile_absent (c := c) hc habsent
  have h2 := readFile_absent hc habsent
  exact ⟨h1, run_cons h1 (run_cons h2 (run_nil fs))⟩

/-- Witness of C12: the sample state has the file `notes` and no file `todo`. -/
theorem writeFile_never_creates_witness :
    Reachable sampleFile ∧ sampleFile.currentFile "todo" = none ∧
      (sampleFile.writeFile "todo" "buy milk" =
        some (sampleFile, "Error: File '" ++ "todo" ++ "' not found.\n") ∧
      sampleFile.run [.writeFile "todo" "buy milk", .readFile "todo"] =
        some (sampleFile, ["Error: File '" ++ "todo" ++ "' not found.\n",
          "Error: File '" ++ "todo" ++ "' not found in memory.\n"])) :=
  ⟨sampleFile_reachable, by decide,
    writeFile_never_creates sampleFile "todo" "buy milk" sampleFile_reachable (by decide)⟩

/-- C13: in a reachable state, `createDirectory name` reports that the directory
already exists exactly when `name` is a key of the subdirectory map of the current
directory, and then returns the state unchanged.  Otherwise it reports the
creation; the new state has the same root and current directory, a new cell at a
fresh address whose name is `name`, whose maps are empty and whose parent is the
current directory, and the current directory maps `name` to that address; the other
subdirectory entries, the files and all other cells are as before. -/
theorem createDirectory_spec (fs : FileSystem) (name : String) (hreach : Reachable fs) :
    ((∃ fs1, fs.createDirectory name =
        some (fs1, "Error: Directory '" ++ name ++ "' already exists.\n")) ↔
      (fs.currentSubDirectory name).isSome = true) ∧
    ((fs.currentSubDirectory name).isSome = true →
      fs.createDirectory name =
        some (fs, "Error: Directory '" ++ name ++ "' already exists.\n")) ∧
    (fs.currentSubDirectory name = none →
      ∃ fs1, fs.createDirectory name = some (fs1, "Directory '" ++ name ++ "' created.\n") ∧
        fs1.root = fs.root ∧ fs1.currentDirectory = fs.currentDirectory ∧
        fs.deref fs.heap.length = none ∧
        fs1.deref fs.heap.length =
          some { name := name, subDirectories := [], files := [],
                 parent := some fs.currentDirectory } ∧
        fs1.currentSubDirectory name = some fs.heap.length ∧
        (∀ m, m ≠ name → fs1.currentSubDirectory m = fs.currentSubDirectory m) ∧
        (∀ m, fs1.currentFile m = fs.currentFile m) ∧
        (∀ i, i ≠ fs.currentDirectory → i ≠ fs.heap.length → fs1.deref i = fs.deref i)) := by
  obtain ⟨cur, hc⟩ := hreach.current
  have hlt := lt_of_deref hc
  rw [currentSubDirectory_eq hc]
  have hfresh : cur.subDirectories.find name = none →
      ∃ fs1, fs.createDirectory name = some (fs1, "Directory '" ++ name ++ "' created.\n") ∧
        fs1.root = fs.root ∧ fs1.currentDirectory = fs.currentDirectory ∧
        fs.deref fs.heap.length = none ∧
        fs1.deref fs.heap.length =
          some { name := name, subDirectories := [], files := [],
                 parent := some fs.currentDirectory } ∧
        fs1.currentSubDirectory name = some fs.heap.length ∧
        (∀ m, m ≠ name → fs1.currentSubDirectory m = fs.currentSubDirectory m) ∧
        (∀ m, fs1.currentFile m = fs.currentFile m) ∧
        (∀ i, i ≠ fs.currentDirectory → i ≠ fs.heap.length → fs1.deref i = fs.deref i) := by
    intro hf
    obtain ⟨fs1, h1, hr, hcur, _, hd⟩ := createDirectory_fresh hc hf
    have hne : fs.heap.length ≠ fs.currentDirectory := by omega
    have hc1 : fs1.deref fs1.currentDirectory =
        some { cur with subDirectories := cur.subDirectories.assign name fs.heap.length } := by
      rw [hd, hcur]; simp
    refine ⟨fs1, h1, hr, hcur, ?_, ?_, ?_, ?_, ?_, ?_⟩
    · simp [deref]
    · rw [hd]; simp [hne, Directory.new]
    · rw [currentSubDirectory_eq hc1]
      exact Map.find_assign_self cur.subDirectories name fs.heap.length
    · intro m hm
      rw [currentSubDirectory_eq hc1, currentSubDirectory_eq hc]
      exact Map.find_assign_ne cur.subDirectories fs.heap.length hm
    · intro m
      rw [currentFile_eq hc1, currentFile_eq hc]
    · intro i h1 h2
      rw [hd]; simp [h1, h2]
  refine ⟨?_, ?_, hfresh⟩
  · cases hf : cur.subDirectories.find name with
    | some c => simp [createDirectory_present hc hf]
    | none =>
      obtain ⟨fs1, h1, _⟩ := hfresh hf
      simp only [h1, Option.isSome_none, Option.some.injEq, Prod.mk.injEq]
      constructor
      · rintro ⟨_, _, h⟩
        exact absurd h (created_ne_exists name)
      · intro h
        cases h
  · intro hsome
    obtain ⟨c, hf⟩ := Option.isSome_iff_exists.1 hsome
    exact createDirectory_present hc hf

/-- Witness of C13: in the directory `x` of the sample tree, `y` is a subdirectory
(it stays at address `2`) and `z` is not. -/
theorem createDirectory_spec_witness :
    Reachable sampleNested ∧
      sampleNested.createDirectory "y" =
        some (sampleNested, "Error: Directory '" ++ "y" ++ "' already exists.\n") ∧
      ∃ fs1, sampleNested.createDirectory "z" =
          some (fs1, "Directory '" ++ "z" ++ "' created.\n") ∧
        fs1.root = sampleNested.root ∧
        fs1.currentDirectory = sampleNested.currentDirectory ∧
        sampleNested.deref sampleNested.heap.length = none ∧
        fs1.deref sampleNested.heap.length =
          some { name := "z", subDirectories := [], files := [],
                 parent := some sampleNested.currentDirectory } ∧
        fs1.currentSubDirectory "z" = some sampleNested.heap.length ∧
        (∀ m, m ≠ "z" → fs1.currentSubDirectory m = sampleNested.currentSubDirectory m) ∧
        (∀ m, fs1.currentFile m = sampleNested.currentFile m) ∧
        (∀ i, i ≠ sampleNested.currentDirectory → i ≠ sampleNested.heap.length →
          fs1.deref i = sampleNested.deref i) :=
  ⟨sampleNested_reachable,
    (createDirectory_spec sampleNested "y" sampleNested_reachable).2.1 (by decide),
    (createDirectory_spec sampleNested "z" sampleNested_reachable).2.2 (by decide)⟩

/-- C14: in a reachable state `readFile n` returns the state it was given; it
reports not found when `n` is not a file of the current directory, and otherwise
prints the header line followed by the content of that file as stored. -/
theorem readFile_read_only (fs : FileSystem) (n : String) (hreach : Reachable fs) :
    ∃ out, fs.readFile n = some (fs, out) ∧
      (fs.currentFile n = none →
        out = "Error: File '" ++ n ++ "' not found in memory.\n") ∧
      (∀ f, fs.currentFile n = some f →
        out = "Reading from in-memory file '" ++ n ++ "':\n" ++ f.content ++ "\n") := by
  obtain ⟨cur, hc⟩ := hreach.current
  rw [currentFile_eq hc]
  cases hf : cur.files.find n with
  | none =>
    exact ⟨_, readFile_absent hc hf, fun _ => rfl, fun f h => Option.noConfusion h⟩
  | some g =>
    refine ⟨_, readFile_present hc hf, fun h => Option.noConfusion h, fun f h => ?_⟩
    cases h
    rfl

/-- Witness of C14: reading `notes`, which holds `draft`, prints it and returns the
sample state. -/
theorem readFile_read_only_witness :
    Reachable sampleFile ∧
      sampleFile.readFile "notes" =
        some (sampleFile, "Reading from in-memory file 'notes':\ndraft\n") ∧
      ∃ out, sampleFile.readFile "notes" = some (sampleFile, out) ∧
        (sampleFile.currentFile "notes" = none →
          out = "Error: File '" ++ "notes" ++ "' not found in memory.\n") ∧
        (∀ f, sampleFile.currentFile "notes" = some f →
          out = "Reading from in-memory file '" ++ "notes" ++ "':\n" ++ f.content ++ "\n") :=
  ⟨sampleFile_reachable, rfl, readFile_read_only sampleFile "notes" sampleFile_reachable⟩

/-! ## Reading words from a stream -/

theorem extract_word (pre word rest : List Char) (hpre : pre.all isspace = true)
    (hne : word ≠ []) (hword : word.all (fun c => !isspace c) = true)
    (hrest : (rest.head?.map isspace).getD true = true) :
    extract (pre ++ word ++ rest) = (String.mk word, rest) := by
  have hpre2 : ∀ c ∈ pre, isspace c = true := by simpa using hpre
  have hword2 : ∀ c ∈ word, (!isspace c) = true := by simpa using hword
  have h1 : (pre ++ word ++ rest).dropWhile isspace = word ++ rest := by
    rw [List.append_assoc, List.dropWhile_append_of_pos hpre2]
    cases word with
    | nil => exact absurd rfl hne
    | cons c t =>
      have hc : isspace c = false := by simpa using hword2 c (List.mem_cons_self c t)
      simp [List.dropWhile_cons, hc]
  have h2 : rest.takeWhile (fun c => !isspace c) = [] := by
    cases rest with
    | nil => rfl
    | cons c t =>
      have hc : isspace c = true := by simpa using hrest
      simp [List.takeWhile_cons, hc]
  have h3 : rest.dropWhile (fun c => !isspace c) = rest := by
    cases rest with
    | nil => rfl
    | cons c t =>
      have hc : isspace c = true := by simpa using hrest
      simp [List.dropWhile_cons, hc]
  simp only [extract, h1, List.takeWhile_append_of_pos hword2,
    List.dropWhile_append_of_pos hword2, h2, h3, List.append_nil]

theorem getline_of_line (rest : List Char) (hline : rest.contains (Char.ofNat 10) = false) :
    (getline rest).1 = String.mk rest := by
  have h : ∀ c ∈ rest, (c != Char.ofNat 10) = true := by
    intro c hc
    have hne : c ≠ Char.ofNat 10 := by
      intro e
      subst e
      have : rest.contains (Char.ofNat 10) = true := by simpa using hc
      rw [hline] at this
      cases this
    simpa using hne
  simp only [getline, List.takeWhile_eq_self_iff.2 h]

/-- C15, the code at the failing input: `changeDirectory` assigns `currentDirectory`
while it holds the `dirMutex` of the current directory, `goToParent` and `goToRoot`
assign it while they hold `fsMutex`, and these are never the same mutex.  In the
directory `x` of the sample tree, `changeDirectory "y"` holds the mutex of `x` and
moves to address `2`, `goToRoot` holds `fsMutex` and moves to address `0`; run one
after the other, in either order, the two calls end at the root. -/
theorem changeDirectory_guard_differs :
    (∀ (fs : FileSystem) (name : String),
      fs.guard (.changeDirectory name) = .dirMutex fs.currentDirectory ∧
      fs.guard .goToParent = .fsMutex ∧ fs.guard .goToRoot = .fsMutex ∧
      fs.guard (.changeDirectory name) ≠ fs.guard .goToParent ∧
      fs.guard (.changeDirectory name) ≠ fs.guard .goToRoot) ∧
    sampleNested.guard (.changeDirectory "y") = .dirMutex 1 ∧
    sampleNested.guard .goToRoot = .fsMutex ∧
    (sampleNested.changeDirectory "y").map (fun r => r.1.currentDirectory) = some 2 ∧
    (sampleNested.goToRoot).map (fun r => r.1.currentDirectory) = some 0 ∧
    (sampleNested.run [.changeDirectory "y", .goToRoot]).map
      (fun r => (r.1.currentDirectory, r.2)) =
        some (0, ["Changed to directory 'y'.\n", "Moved to root directory.\n"]) ∧
    (sampleNested.run [.goToRoot, .changeDirectory "y"]).map
      (fun r => (r.1.currentDirectory, r.2)) =
        some (0, ["Moved to root directory.\n", "Error: Directory 'y' not found.\n"]) := by
  refine ⟨fun fs name => ⟨rfl, rfl, rfl, ?_, ?_⟩, rfl, rfl, rfl, rfl, rfl, rfl⟩
  · simp [FileSystem.guard]
  · simp [FileSystem.guard]

/-- C17: for a line made of optional whitespace, the word `write`, whitespace, a
file name (a non-empty word without whitespace) and a remainder that is empty or
starts with whitespace and has no line break, `processCommand` calls `writeFile`
with that file name and with the whole remainder as content: the text after the
file name, from the separating whitespace on, blanks kept. -/
theorem processCommand_write (fs : FileSystem) (pre sep name rest : String)
    (hpre : pre.data.all isspace = true)
    (hsep : sep.data ≠ [] ∧ sep.data.all isspace = true)
    (hname : name.data ≠ [] ∧ name.data.all (fun c => !isspace c) = true)
    (hrest : (rest.data.head?.map isspace).getD true = true)
    (hline : rest.data.contains (Char.ofNat 10) = false) :
    FileSystemCLI.processCommand fs (pre ++ "write" ++ sep ++ name ++ rest) =
      fs.writeFile name rest := by
  have hsep2 : (((sep.data ++ name.data ++ rest.data).head?).map isspace).getD true = true := by
    cases hs : sep.data with
    | nil => exact absurd hs hsep.1
    | cons c t =>
      have : isspace c = true := by
        have h := hsep.2
        rw [hs] at h
        simp only [List.all_cons, Bool.and_eq_true] at h
        exact h.1
      simp [this]
  have h1 : extract (pre ++ "write" ++ sep ++ name ++ rest).data =
      ("write", sep.data ++ name.data ++ rest.data) := by
    have := extract_word pre.data "write".data (sep.data ++ name.data ++ rest.data) hpre
      (by decide) (by decide) hsep2
    simpa [String.data_append, List.append_assoc] using this
  have h2 : extract (sep.data ++ name.data ++ rest.data) = (name, rest.data) :=
    extract_word sep.data name.data rest.data hsep.2 hname.1 hname.2 hrest
  have h3 : (getline rest.data).1 = rest := getline_of_line rest.data hline
  have hc : ¬ ("write" = "create") := by decide
  have hr : ¬ ("write" = "read") := by decide
  simp only [FileSystemCLI.processCommand, h1, h2, h3, hc, hr, if_false, if_true]

/-- Witness of C17: the line `write f hello world` in the directory `x` of the
sample tree, where `f` exists; the content written starts with the blank that
follows the file name, and `read f` prints it so. -/
theorem processCommand_write_witness :
    "" ++ "write" ++ " " ++ "f" ++ " hello world" = "write f hello world" ∧
      FileSystemCLI.processCommand sampleNested ("" ++ "write" ++ " " ++ "f" ++ " hello world") =
        sampleNested.writeFile "f" " hello world" ∧
      ∃ fs1, sampleNested.writeFile "f" " hello world" =
          some (fs1, "File 'f' has been updated.\n") ∧
        FileSystemCLI.processCommand fs1 "read f" =
          some (fs1, "Reading from in-memory file 'f':\n hello world\n") :=
  ⟨by decide,
    processCommand_write sampleNested "" " " "f" " hello world" (by decide)
      ⟨by decide, by decide⟩ ⟨by decide, by decide⟩ (by decide) (by decide),
    _, rfl, by decide⟩

/-! ## The text every call writes -/

theorem append_ne_empty (a b : String) (h : b ≠ "") : a ++ b ≠ "" := by
  intro e
  apply h
  have h2 := congrArg String.data e
  simp only [String.data_append] at h2
  have h3 : b.data = [] := (List.append_eq_nil.1 h2).2
  exact String.ext h3

/-- Counterexample to C18: on a freshly constructed `FileSystem`, the operation
`createFile "a"` itself writes the text `File 'a' created successfully.` and a line
break. -/
theorem core_output_counterexample :
    (FileSystem.new.createFile "a").map Prod.snd = some "File 'a' created successfully.\n" ∧
      "File 'a' created successfully.\n" ≠ "" :=
  ⟨rfl, by decide⟩

/-- The text written by a call never starts with the letter `I`, so it is not the
text `Invalid command.` of the command layer. -/
theorem FileSystem.call_out_ne_invalid {fs fs1 : FileSystem} {out : String} (op : Op)
    (h : fs.call op = some (fs1, out)) : out ≠ "Invalid command.\n" := by
  have key : ∀ c : Char, out.data.head? = some c → c ≠ 'I' → out ≠ "Invalid command.\n" := by
    intro c hc hne e
    rw [e] at hc
    exact hne (Option.some.inj hc).symm
  cases op with
  | createFile n =>
    simp only [FileSystem.call, createFile] at h
    split at h
    · cases h
    · split at h <;>
        (simp only [Option.some.injEq, Prod.mk.injEq] at h
         obtain ⟨_, e⟩ := h
         subst e
         refine key _ (by simp [String.data_append]; rfl) (by decide))
  | readFile n =>
    simp only [FileSystem.call, readFile] at h
    split at h
    · cases h
    · split at h <;>
        (simp only [Option.some.injEq, Prod.mk.injEq] at h
         obtain ⟨_, e⟩ := h
         subst e
         refine key _ (by simp [String.data_append]; rfl) (by decide))
  | writeFile n c =>
    simp only [FileSystem.call, writeFile] at h
    split at h
    · cases h
    · split at h <;>
        (simp only [Option.some.injEq, Prod.mk.injEq] at h
         obtain ⟨_, e⟩ := h
         subst e
         refine key _ (by simp [String.data_append]; rfl) (by decide))
  | deleteFile n =>
    simp only [FileSystem.call, deleteFile] at h
    split at h
    · cases h
    · split at h <;>
        (simp only [Option.some.injEq, Prod.mk.injEq] at h
         obtain ⟨_, e⟩ := h
         subst e
         refine key _ (by simp [String.data_append]; rfl) (by decide))
  | createDirectory n =>
    simp only [FileSystem.call, createDirectory] at h
    split at h
    · cases h
    · split at h <;>
        (simp only [Option.some.injEq, Prod.mk.injEq] at h
         obtain ⟨_, e⟩ := h
         subst e
         refine key _ (by simp [String.data_append]; rfl) (by decide))
  | changeDirectory n =>
    simp only [FileSystem.call, changeDirectory] at h
    split at h
    · cases h
    · split at h <;>
        (simp only [Option.some.injEq, Prod.mk.injEq] at h
         obtain ⟨_, e⟩ := h
         subst e
         refine key _ (by simp [String.data_append]; rfl) (by decide))
  | goToParent =>
    simp only [FileSystem.call, goToParent] at h
    split at h
    · simp only [Option.some.injEq, Prod.mk.injEq] at h
      obtain ⟨_, e⟩ := h
      subst e
      decide
    · split at h
      · cases h
      · split at h <;>
          (simp only [Option.some.injEq, Prod.mk.injEq] at h
           obtain ⟨_, e⟩ := h
           subst e
           decide)
  | goToRoot =>
    simp only [FileSystem.call, goToRoot, Option.some.injEq, Prod.mk.injEq] at h
    obtain ⟨_, e⟩ := h
    subst e
    decide

/-- C18, amended: in a reachable state every call of one of the eight operations
returns and has itself written a non-empty text.  The command layer renders
nothing: when the first word of the line is one of the keywords `create`, `read`,
`write`, `delete`, `createDir`, `cd`, `parent`, `root`, `processCommand` is exactly
the call of the operation of that keyword, with no text added; when it is none of
them, `processCommand` leaves the state unchanged and writes `Invalid command.`;
and that text is written for no other line. -/
theorem core_writes_outcome (fs : FileSystem) (hreach : Reachable fs) :
    (∀ op : Op, ∃ fs1 out, fs.call op = some (fs1, out) ∧ out ≠ "") ∧
    (∀ line : String,
      ((extract line.data).1 = "create" →
        FileSystemCLI.processCommand fs line =
          fs.call (.createFile (extract (extract line.data).2).1)) ∧
      ((extract line.data).1 = "read" →
        FileSystemCLI.processCommand fs line =
          fs.call (.readFile (extract (extract line.data).2).1)) ∧
      ((extract line.data).1 = "write" →
        FileSystemCLI.processCommand fs line =
          fs.call (.writeFile (extract (extract line.data).2).1
            (getline (extract (extract line.data).2).2).1)) ∧
      ((extract line.data).1 = "delete" →
        FileSystemCLI.processCommand fs line =
          fs.call (.deleteFile (extract (extract line.data).2).1)) ∧
      ((extract line.data).1 = "createDir" →
        FileSystemCLI.processCommand fs line =
          fs.call (.createDirectory (extract (extract line.data).2).1)) ∧
      ((extract line.data).1 = "cd" →
        FileSystemCLI.processCommand fs line =
          fs.call (.changeDirectory (extract (extract line.data).2).1)) ∧
      ((extract line.data).1 = "parent" →
        FileSystemCLI.processCommand fs line = fs.call .goToParent) ∧
      ((extract line.data).1 = "root" →
        FileSystemCLI.processCommand fs line = fs.call .goToRoot) ∧
      ((extract line.data).1 ∉
          ["create", "read", "write", "delete", "createDir", "cd", "parent", "root"] →
        FileSystemCLI.processCommand fs line = some (fs, "Invalid command.\n")) ∧
      ((∃ fs1, FileSystemCLI.processCommand fs line = some (fs1, "Invalid command.\n")) ↔
        (extract line.data).1 ∉
          ["create", "read", "write", "delete", "createDir", "cd", "parent", "root"])) := by
  obtain ⟨cur, hc⟩ := hreach.current
  constructor
  · intro op
    cases op with
    | createFile n =>
      cases hf : cur.files.find n with
      | none => exact ⟨_, _, createFile_absent hc hf, append_ne_empty _ _ (by decide)⟩
      | some f => exact ⟨_, _, createFile_present hc hf, append_ne_empty _ _ (by decide)⟩
    | readFile n =>
      cases hf : cur.files.find n with
      | none => exact ⟨_, _, readFile_absent hc hf, append_ne_empty _ _ (by decide)⟩
      | some f => exact ⟨_, _, readFile_present hc hf, append_ne_empty _ _ (by decide)⟩
    | writeFile n c =>
      cases hf : cur.files.find n with
      | none => exact ⟨_, _, writeFile_absent hc hf, append_ne_empty _ _ (by decide)⟩
      | some f => exact ⟨_, _, writeFile_present hc hf, append_ne_empty _ _ (by decide)⟩
    | deleteFile n =>
      cases hf : cur.files.find n with
      | none => exact ⟨_, _, deleteFile_absent hc hf, append_ne_empty _ _ (by decide)⟩
      | some f => exact ⟨_, _, deleteFile_present hc hf, append_ne_empty _ _ (by decide)⟩
    | createDirectory n =>
      cases hf : cur.subDirectories.find n with
      | none =>
        obtain ⟨fs1, h1, _⟩ := createDirectory_fresh hc hf
        exact ⟨_, _, h1, append_ne_empty _ _ (by decide)⟩
      | some c =>
        exact ⟨_, _, createDirectory_present hc hf, append_ne_empty _ _ (by decide)⟩
    | changeDirectory n =>
      cases hf : cur.subDirectories.find n with
      | none => exact ⟨_, _, changeDirectory_absent hc hf, append_ne_empty _ _ (by decide)⟩
      | some c =>
        exact ⟨_, _, changeDirectory_present hc hf, append_ne_empty _ _ (by decide)⟩
    | goToParent =>
      by_cases hroot : fs.currentDirectory = fs.root
      · exact ⟨_, _, goToParent_at_root hroot, by decide⟩
      · obtain ⟨p, dp, hp, _, _, hdp, _⟩ := hreach.inv.lock_parent hc hroot
        exact ⟨_, _, goToParent_below_root hroot hc hp (lt_of_deref hdp), by decide⟩
    | goToRoot => exact ⟨_, _, rfl, by decide⟩
  · intro line
    have e1 : (extract line.data).1 = "create" →
        FileSystemCLI.processCommand fs line =
          fs.call (.createFile (extract (extract line.data).2).1) := by
      intro h
      simp [FileSystemCLI.processCommand, FileSystem.call, h]
    have e2 : (extract line.data).1 = "read" →
        FileSystemCLI.processCommand fs line =
          fs.call (.readFile (extract (extract line.data).2).1) := by
      intro h
      simp [FileSystemCLI.processCommand, FileSystem.call, h]
    have e3 : (extract line.data).1 = "write" →
        FileSystemCLI.processCommand fs line =
          fs.call (.writeFile (extract (extract line.data).2).1
            (getline (extract (extract line.data).2).2).1) := by
      intro h
      simp [FileSystemCLI.processCommand, FileSystem.call, h]
    have e4 : (extract line.data).1 = "delete" →
        FileSystemCLI.processCommand fs line =
          fs.call (.deleteFile (extract (extract line.data).2).1) := by
      intro h
      simp [FileSystemCLI.processCommand, FileSystem.call, h]
    have e5 : (extract line.data).1 = "createDir" →
        FileSystemCLI.processCommand fs line =
          fs.call (.createDirectory (extract (extract line.data).2).1) := by
      intro h
      simp [FileSystemCLI.processCommand, FileSystem.call, h]
    have e6 : (extract line.data).1 = "cd" →
        FileSystemCLI.processCommand fs line =
          fs.call (.changeDirectory (extract (extract line.data).2).1) := by
      intro h
      simp [FileSystemCLI.processCommand, FileSystem.call, h]
    have e7 : (extract line.data).1 = "parent" →
        FileSystemCLI.processCommand fs line = fs.call .goToParent := by
      intro h
      simp [FileSystemCLI.processCommand, FileSystem.call, h]
    have e8 : (extract line.data).1 = "root" →
        FileSystemCLI.processCommand fs line = fs.call .goToRoot := by
      intro h
      simp [FileSystemCLI.processCommand, FileSystem.call, h]
    have e9 : (extract line.data).1 ∉
          ["create", "read", "write", "delete", "createDir", "cd", "parent", "root"] →
        FileSystemCLI.processCommand fs line = some (fs, "Invalid command.\n") := by
      intro h
      simp only [List.mem_cons, List.mem_singleton, List.not_mem_nil, or_false, not_or] at h
      obtain ⟨h1, h2, h3, h4, h5, h6, h7, h8⟩ := h
      simp [FileSystemCLI.processCommand, h1, h2, h3, h4, h5, h6, h7, h8]
    refine ⟨e1, e2, e3, e4, e5, e6, e7, e8, e9, ?_, fun h => ⟨fs, e9 h⟩⟩
    rintro ⟨fs1, hinv⟩ hmem
    simp only [List.mem_cons, List.mem_singleton, List.not_mem_nil, or_false] at hmem
    rcases hmem with h | h | h | h | h | h | h | h
    · rw [e1 h] at hinv; exact call_out_ne_invalid _ hinv rfl
    · rw [e2 h] at hinv; exact call_out_ne_invalid _ hinv rfl
    · rw [e3 h] at hinv; exact call_out_ne_invalid _ hinv rfl
    · rw [e4 h] at hinv; exact call_out_ne_invalid _ hinv rfl
    · rw [e5 h] at hinv; exact call_out_ne_invalid _ hinv rfl
    · rw [e6 h] at hinv; exact call_out_ne_invalid _ hinv rfl
    · rw [e7 h] at hinv; exact call_out_ne_invalid _ hinv rfl
    · rw [e8 h] at hinv; exact call_out_ne_invalid _ hinv rfl

/-- Witness of C18, amended: in the sample tree every call writes a text, the line
`read f` is the call `readFile "f"`, and the line `list f`, whose first word is no
keyword, gives `Invalid command.`. -/
theorem core_writes_outcome_witness :
    Reachable sampleNested ∧
      (∀ op : Op, ∃ fs1 out, sampleNested.call op = some (fs1, out) ∧ out ≠ "") ∧
      FileSystemCLI.processCommand sampleNested "read f" =
        sampleNested.call (.readFile "f") ∧
      FileSystemCLI.processCommand sampleNested "list f" =
        some (sampleNested, "Invalid command.\n") ∧
      ((∃ fs1, FileSystemCLI.processCommand sampleNested "list f" =
          some (fs1, "Invalid command.\n")) ↔
        (extract "list f".data).1 ∉
          ["create", "read", "write", "delete", "createDir", "cd", "parent", "root"]) :=
  ⟨sampleNested_reachable,
    (core_writes_outcome sampleNested sampleNested_reachable).1,
    ((core_writes_outcome sampleNested sampleNested_reachable).2 "read f").2.1 (by decide),
    ((core_writes_outcome sampleNested sampleNested_reachable).2 "list f").2.2.2.2.2.2.2.2.1
      (by decide),
    ((core_writes_outcome sampleNested sampleNested_reachable).2 "list f").2.2.2.2.2.2.2.2.2⟩

/-! ## Frame of a store into the current directory -/

theorem FileSystem.store_files_frame {fs : FileSystem} {cur : Directory}
    (hc : fs.deref fs.currentDirectory = some cur) (files : Map File) (n : String)
    (hfiles : ∀ m, m ≠ n → files.find m = cur.files.find m) :
    (fs.store fs.currentDirectory { cur with files := files }).currentDirectory =
        fs.currentDirectory ∧
      (fs.store fs.currentDirectory { cur with files := files }).root = fs.root ∧
      (∃ d1, (fs.store fs.currentDirectory { cur with files := files }).deref
            fs.currentDirectory = some d1 ∧
          d1.name = cur.name ∧ d1.subDirectories = cur.subDirectories ∧
          d1.parent = cur.parent) ∧
      (∀ m, m ≠ n →
        (fs.store fs.currentDirectory { cur with files := files }).currentFile m =
          fs.currentFile m) ∧
      (∀ i, i ≠ fs.currentDirectory →
        (fs.store fs.currentDirectory { cur with files := files }).deref i = fs.deref i) := by
  have hc1 := deref_current_store fs { cur with files := files } (lt_of_deref hc)
  refine ⟨rfl, rfl, ⟨_, hc1, rfl, rfl, rfl⟩, ?_, ?_⟩
  · intro m hm
    rw [currentFile_eq hc1, currentFile_eq hc]
    exact hfiles m hm
  · intro i hi
    exact deref_store_ne fs _ (fun h => hi h.symm)

/-- C19: in a reachable state, each of `createFile n`, `writeFile n c` and
`deleteFile n` returns a state with the same root and current directory, in which
the current directory has its name, parent and subdirectory map as before, every
file `m ≠ n` of the current directory is as before (present with the same content,
or absent), and every other cell of the heap is unchanged. -/
theorem file_operations_frame (fs : FileSystem) (n c : String) (op : Op)
    (hreach : Reachable fs)
    (hop : op = .createFile n ∨ op = .writeFile n c ∨ op = .deleteFile n) :
    ∃ fs1 out cur cur1, fs.call op = some (fs1, out) ∧
      fs1.currentDirectory = fs.currentDirectory ∧ fs1.root = fs.root ∧
      fs.deref fs.currentDirectory = some cur ∧
      fs1.deref fs.currentDirectory = some cur1 ∧
      cur1.name = cur.name ∧ cur1.subDirectories = cur.subDirectories ∧
      cur1.parent = cur.parent ∧
      (∀ m, m ≠ n → fs1.currentFile m = fs.currentFile m) ∧
      (∀ i, i ≠ fs.currentDirectory → fs1.deref i = fs.deref i) := by
  obtain ⟨cur, hc⟩ := hreach.current
  have changed : ∀ (files : Map File) (out : String),
      (∀ m, m ≠ n → files.find m = cur.files.find m) →
      ∃ fs1 out1 cur0 cur1,
        some (fs.store fs.currentDirectory { cur with files := files }, out) =
          some (fs1, out1) ∧
        fs1.currentDirectory = fs.currentDirectory ∧ fs1.root = fs.root ∧
        fs.deref fs.currentDirectory = some cur0 ∧
        fs1.deref fs.currentDirectory = some cur1 ∧
        cur1.name = cur0.name ∧ cur1.subDirectories = cur0.subDirectories ∧
        cur1.parent = cur0.parent ∧
        (∀ m, m ≠ n → fs1.currentFile m = fs.currentFile m) ∧
        (∀ i, i ≠ fs.currentDirectory → fs1.deref i = fs.deref i) := by
    intro files out hfiles
    obtain ⟨h1, h2, ⟨d1, hd1, e1, e2, e3⟩, h4, h5⟩ := store_files_frame hc files n hfiles
    exact ⟨_, out, cur, d1, rfl, h1, h2, hc, hd1, e1, e2, e3, h4, h5⟩
  rcases hop with h | h | h
  · subst h
    cases hf : cur.files.find n with
    | some f =>
      exact ⟨fs, _, cur, cur, createFile_present hc hf, rfl, rfl, hc, hc, rfl, rfl, rfl,
        fun _ _ => rfl, fun _ _ => rfl⟩
    | none =>
      obtain ⟨fs1, out1, c0, c1, e, rest⟩ := changed (cur.files.assign n (File.new n))
        ("File '" ++ n ++ "' created successfully.\n")
        (fun m hm => Map.find_assign_ne cur.files (File.new n) hm)
      exact ⟨fs1, out1, c0, c1, (createFile_absent hc hf).trans e, rest⟩
  · subst h
    cases hf : cur.files.find n with
    | some f =>
      obtain ⟨fs1, out1, c0, c1, e, rest⟩ :=
        changed (cur.files.assign n { f with content := c })
          ("File '" ++ n ++ "' has been updated.\n")
          (fun m hm => Map.find_assign_ne cur.files { f with content := c } hm)
      exact ⟨fs1, out1, c0, c1, (writeFile_present hc hf).trans e, rest⟩
    | none =>
      exact ⟨fs, _, cur, cur, writeFile_absent hc hf, rfl, rfl, hc, hc, rfl, rfl, rfl,
        fun _ _ => rfl, fun _ _ => rfl⟩
  · subst h
    cases hf : cur.files.find n with
    | some f =>
      obtain ⟨fs1, out1, c0, c1, e, rest⟩ := changed (cur.files.erase n)
        ("File '" ++ n ++ "' has been deleted.\n")
        (fun m hm => Map.find_erase_ne cur.files hm)
      exact ⟨fs1, out1, c0, c1, (deleteFile_present hc hf).trans e, rest⟩
    | none =>
      exact ⟨fs, _, cur, cur, deleteFile_absent hc hf, rfl, rfl, hc, hc, rfl, rfl, rfl,
        fun _ _ => rfl, fun _ _ => rfl⟩

/-- Witness of C19: deleting the file `f` in the directory `x` of the sample
tree. -/
theorem file_operations_frame_witness :
    Reachable sampleNested ∧
      ∃ fs1 out cur cur1, sampleNested.call (.deleteFile "f") = some (fs1, out) ∧
        fs1.currentDirectory = sampleNested.currentDirectory ∧ fs1.root = sampleNested.root ∧
        sampleNested.deref sampleNested.currentDirectory = some cur ∧
        fs1.deref sampleNested.currentDirectory = some cur1 ∧
        cur1.name = cur.name ∧ cur1.subDirectories = cur.subDirectories ∧
        cur1.parent = cur.parent ∧
        (∀ m, m ≠ "f" → fs1.currentFile m = sampleNested.currentFile m) ∧
        (∀ i, i ≠ sampleNested.currentDirectory → fs1.deref i = sampleNested.deref i) :=
  ⟨sampleNested_reachable,
    file_operations_frame sampleNested "f" "" (.deleteFile "f") sampleNested_reachable
      (Or.inr (Or.inr rfl))⟩

/-- C20: in a reachable state where `x` is a subdirectory of the current
directory, `changeDirectory x` reports the change and moves to the address stored
under `x`, and `goToParent` right after it reports the move and returns exactly
the original state: same heap, same root, same current directory. -/
theorem changeDirectory_then_goToParent (fs : FileSystem) (x : String)
    (hreach : Reachable fs) (hsub : (fs.currentSubDirectory x).isSome = true) :
    ∃ child, fs.currentSubDirectory x = some child ∧
      fs.changeDirectory x =
        some ({ fs with currentDirectory := child },
          "Changed to directory '" ++ x ++ "'.\n") ∧
      FileSystem.goToParent { fs with currentDirectory := child } =
        some (fs, "Moved to parent directory.\n") ∧
      fs.run [.changeDirectory x, .goToParent] =
        some (fs, ["Changed to directory '" ++ x ++ "'.\n", "Moved to parent directory.\n"]) := by
  obtain ⟨cur, hc⟩ := hreach.current
  have hinv := hreach.inv
  rw [currentSubDirectory_eq hc] at hsub ⊢
  obtain ⟨child, hf⟩ := Option.isSome_iff_exists.1 hsub
  obtain ⟨dc, hdc, hpar, _⟩ := hinv.child_link _ cur x child hc hf
  have hne : child ≠ fs.root := by
    intro e
    rw [e] at hdc
    rw [hinv.root_parent dc hdc] at hpar
    cases hpar
  have h1 := changeDirectory_present hc hf
  have h2 : FileSystem.goToParent { fs with currentDirectory := child } =
      some (fs, "Moved to parent directory.\n") :=
    @goToParent_below_root { fs with currentDirectory := child } dc fs.currentDirectory
      hne hdc hpar (lt_of_deref hc)
  exact ⟨child, hf, h1, h2, run_cons h1 (run_cons h2 (run_nil fs))⟩

/-- Witness of C20: in the sample tree the directory `x` has a subdirectory `x`,
and so has the root. -/
theorem changeDirectory_then_goToParent_witness :
    Reachable sampleSameName ∧ (sampleSameName.currentSubDirectory "x").isSome = true ∧
      ((FileSystem.deref sampleSameName sampleSameName.root).map
        (fun d => d.subDirectories.find "x") = some (some 1)) ∧
      ∃ child, sampleSameName.currentSubDirectory "x" = some child ∧
        sampleSameName.changeDirectory "x" =
          some ({ sampleSameName with currentDirectory := child },
            "Changed to directory '" ++ "x" ++ "'.\n") ∧
        FileSystem.goToParent { sampleSameName with currentDirectory := child } =
          some (sampleSameName, "Moved to parent directory.\n") ∧
        sampleSameName.run [.changeDirectory "x", .goToParent] =
          some (sampleSameName,
            ["Changed to directory '" ++ "x" ++ "'.\n", "Moved to parent directory.\n"]) :=
  ⟨sampleSameName_reachable, by decide, by decide,
    changeDirectory_then_goToParent sampleSameName "x" sampleSameName_reachable (by decide)⟩

end VFS
